import Mathlib

/-!
Verification of the BulbaSaur Object Notation (BSON) core: a shallow embedding of
the C++ implementation (cpp-bson/Lexer.cpp and cpp-bson/BSONParser.cpp) as
executable Lean definitions, followed by theorems about the lexer and parser.

Strings are modelled as lists of characters (`Str`), so that every operation is a
structurally recursive, kernel-reducible function.  Each definition carries the
name of the C++ function it embeds.
-/

namespace BSON

/-- Text is modelled as a list of characters. -/
abbrev Str := List Char

/-- The closed error taxonomy: each C++ `std::runtime_error` message string is one kind.
`headerError` = "Status: Fainted", `tabError` = "Poison Type: Tab character detected",
`indentationError` = "The attack missed!", `syntaxError` = "It hurt itself in its confusion!",
`typeError` = "Target is immune!", `badgesError` = "Not enough badges!",
`reservedKeyError` = "It burns the bulb". -/
inductive BSONError where
  | headerError
  | tabError
  | indentationError
  | syntaxError
  | typeError
  | badgesError
  | reservedKeyError
  deriving DecidableEq, Repr

/-- `TokenType` from Lexer.hpp (TOKEN_VINE_WHIP is the assignment operator). -/
inductive TokenType where
  | header
  | indent
  | sectionOpen
  | sectionClose
  | identifier
  | vineWhip
  | stringLit
  | numberLit
  | boolLit
  | nullLit
  | arrayStart
  | arrayEnd
  | comma
  | eof
  deriving DecidableEq, Repr

/-- `Token` from Lexer.hpp. -/
structure Token where
  type : TokenType
  literal : Str
  line : Nat
  level : Nat
  deriving DecidableEq, Repr

/-- C `isspace` in the default locale (used by `std::isspace` in the right-trim,
and by the `\s` regex class and `strtol`/`strtod` whitespace skip). -/
def isSpaceC (c : Char) : Bool :=
  c = ' ' || c = '\t' || c = '\n' || c = '\x0b' || c = '\x0c' || c = '\r'

/-- Split a character list at every occurrence of `sep`.  Always returns at least
one (possibly empty) piece. -/
def splitOnChar (sep : Char) : Str → List Str
  | [] => [[]]
  | c :: rest =>
    match splitOnChar sep rest with
    | [] => [[c]]
    | s :: ss => if c = sep then [] :: s :: ss else (c :: s) :: ss

/-- Drop a final empty piece.  Composed with `splitOnChar` this reproduces the
iteration of `std::getline(ss, piece, sep)`: a stream holding `"a,"` yields the
single piece `"a"`, and an empty stream yields no pieces at all. -/
def dropTrailingEmpty (l : List Str) : List Str :=
  if l.getLast? = some [] then l.dropLast else l

/-- The sequence of pieces produced by repeated `std::getline(ss, piece, sep)`. -/
def cppSplit (sep : Char) (s : Str) : List Str :=
  dropTrailingEmpty (splitOnChar sep s)

/-- `if (!line.empty() && line.back() == '\r') line.pop_back();` (Lexer.cpp:21). -/
def stripCR (l : Str) : Str :=
  if l.getLast? = some '\r' then l.dropLast else l

/-- Truncate the line at the first occurrence of the comment marker `"zZz"`
(Lexer.cpp:35-38). -/
def takeUntilComment : Str → Str
  | 'z' :: 'Z' :: 'z' :: _ => []
  | c :: rest => c :: takeUntilComment rest
  | [] => []

/-- Right-trim whitespace (Lexer.cpp:41-43, `std::isspace`). -/
def rtrim (s : Str) : Str :=
  (s.reverse.dropWhile isSpaceC).reverse

/-- The leading-indentation scan (Lexer.cpp:49-55): count leading spaces; a tab
before any other character sets the tab flag and stops the scan. -/
def countIndent : Str → Nat × Bool
  | [] => (0, false)
  | c :: rest =>
    if c = ' ' then
      let (n, t) := countIndent rest
      (n + 1, t)
    else if c = '\t' then (0, true)
    else (0, false)

/-- `Lexer::trim` (Lexer.cpp:181-186): strips the characters `' '` and `'\t'`
from both ends. -/
def trimST (s : Str) : Str :=
  (((s.dropWhile fun c => c = ' ' || c = '\t').reverse.dropWhile
      fun c => c = ' ' || c = '\t')).reverse

/-- The identifier character class `[a-zA-Z0-9_]` of the key/value regex. -/
def isWordChar (c : Char) : Bool :=
  c.isAlpha || c.isDigit || c = '_'

/-- The inner substring of a section-header line, `line.substr(4, line.length() - 8)`
(Lexer.cpp:80).  `std::string::substr` clamps the count to the remaining length,
and for a 7-character line the `size_t` subtraction wraps around, so the count is
effectively unbounded there. -/
def sectionName (line : Str) : Str :=
  if line.length ≥ 8 then (line.drop 4).take (line.length - 8) else line.drop 4

/-- The key/value regex `^([a-zA-Z0-9_]+)\s*(~{1,}>)\s*(.*)$` (Lexer.cpp:102),
unfolded into its (deterministic) maximal-munch reading: a nonempty run of word
characters, optional whitespace, a nonempty run of `~` ending in `>`, optional
whitespace, and the remainder as the value text. -/
def matchKV (line : Str) : Option (Str × Str) :=
  let key := line.takeWhile isWordChar
  if key.isEmpty then none
  else
    let r2 := (line.dropWhile isWordChar).dropWhile isSpaceC
    let tildes := r2.takeWhile (· = '~')
    if tildes.isEmpty then none
    else
      match r2.dropWhile (· = '~') with
      | '>' :: rest => some (key, rest.dropWhile isSpaceC)
      | _ => none

/-- The numeric value of a run of decimal digits. -/
def digitsVal (ds : Str) : Nat :=
  ds.foldl (fun a c => a * 10 + (c.toNat - '0'.toNat)) 0

/-- Models `std::stoi(s, &pos)` (Lexer.cpp:162, BSONParser.cpp:147): skip
whitespace, optional sign, a nonempty run of decimal digits; `none` when the
call throws (`invalid_argument`: no digits; `out_of_range`: value outside the
32-bit `int` range), otherwise the value and the number of characters consumed. -/
def stoiResult (s : Str) : Option (Int × Nat) :=
  let w := s.takeWhile isSpaceC
  let r1 := s.dropWhile isSpaceC
  let (neg, signLen, r2) : Bool × Nat × Str :=
    match r1 with
    | '-' :: t => (true, 1, t)
    | '+' :: t => (false, 1, t)
    | t => (false, 0, t)
  let ds := r2.takeWhile (·.isDigit)
  if ds.isEmpty then none
  else
    let v : Int := if neg then -(digitsVal ds : Int) else (digitsVal ds : Int)
    if v < -(2 ^ 31) || 2 ^ 31 - 1 < v then none
    else some (v, w.length + signLen + ds.length)

/-- Models `std::stod(s, &pos)` (Lexer.cpp:171, BSONParser.cpp:151) on the decimal
floating grammar: whitespace, optional sign, a digit sequence optionally containing
one `.`, and an optional exponent.  The hexadecimal, infinity and NaN forms of
`strtod` are outside the fragment this format produces and are not modelled; the
value is kept as an exact rational (IEEE rounding abstracted). -/
def stodResult (s : Str) : Option (Rat × Nat) :=
  let w := s.takeWhile isSpaceC
  let r1 := s.dropWhile isSpaceC
  let (neg, signLen, r2) : Bool × Nat × Str :=
    match r1 with
    | '-' :: t => (true, 1, t)
    | '+' :: t => (false, 1, t)
    | t => (false, 0, t)
  let ip := r2.takeWhile (·.isDigit)
  let r3 := r2.dropWhile (·.isDigit)
  let (fp, fracLen, r4) : Str × Nat × Str :=
    match r3 with
    | '.' :: t => (t.takeWhile (·.isDigit), (t.takeWhile (·.isDigit)).length + 1,
                   t.dropWhile (·.isDigit))
    | t => ([], 0, t)
  if ip.isEmpty && fp.isEmpty then none
  else
    let m : Nat := digitsVal ip * 10 ^ fp.length + digitsVal fp
    let (expVal, expLen) : Int × Nat :=
      match r4 with
      | [] => (0, 0)
      | e :: t =>
        if e = 'e' || e = 'E' then
          let (eneg, esignLen, t2) : Bool × Nat × Str :=
            match t with
            | '-' :: u => (true, 1, u)
            | '+' :: u => (false, 1, u)
            | u => (false, 0, u)
          let eds := t2.takeWhile (·.isDigit)
          if eds.isEmpty then (0, 0)
          else ((if eneg then -(digitsVal eds : Int) else (digitsVal eds : Int)),
                1 + esignLen + eds.length)
        else (0, 0)
    let num0 : Int := if expVal < 0 then (m : Int) else (m : Int) * 10 ^ expVal.natAbs
    let den0 : Nat := if expVal < 0 then 10 ^ fp.length * 10 ^ expVal.natAbs
                      else 10 ^ fp.length
    some (mkRat (if neg then -num0 else num0) den0,
          w.length + signLen + ip.length + fracLen + expLen)

/-- The inner text of an array literal, `s.substr(2, s.length() - 4)`
(Lexer.cpp:146), with the `size_t` clamping of `substr` for short inputs. -/
def arrayInner (s : Str) : Str :=
  if s.length ≥ 4 then (s.drop 2).take (s.length - 4) else s.drop 2

/-- The inner text of a string literal, `s.substr(1, s.length() - 2)` (Lexer.cpp:125). -/
def strInner (s : Str) : Str :=
  (s.drop 1).take (s.length - 2)

theorem splitOnChar_measure (sep : Char) (s : Str) :
    ((splitOnChar sep s).map fun x => x.length + 1).sum = s.length + 1 := by
  induction s with
  | nil => simp [splitOnChar]
  | cons c rest ih =>
    simp only [splitOnChar]
    cases hr : splitOnChar sep rest with
    | nil => rw [hr] at ih; simp at ih
    | cons s' ss =>
      rw [hr] at ih
      by_cases hc : c = sep <;> simp [hc] at ih ⊢ <;> omega

theorem sum_dropLast_le (xs : List Nat) : xs.dropLast.sum ≤ xs.sum := by
  induction xs with
  | nil => simp
  | cons a t ih =>
    cases t with
    | nil => simp
    | cons b t2 =>
      have hd : (a :: b :: t2).dropLast = a :: (b :: t2).dropLast := rfl
      rw [hd]
      simp only [List.sum_cons] at ih ⊢
      omega

theorem dropTrailingEmpty_measure_le (l : List Str) :
    ((dropTrailingEmpty l).map fun x => x.length + 1).sum ≤
      (l.map fun x => x.length + 1).sum := by
  unfold dropTrailingEmpty
  by_cases hl : l.getLast? = some []
  case neg => simp [hl]
  simp only [hl, reduceIte]
  have hsplit : l.dropLast ++ [([] : Str)] = l :=
    List.dropLast_append_getLast? _ (by rw [hl]; rfl)
  have h2 : (l.map fun x => x.length + 1).sum
      = ((l.dropLast).map fun x => x.length + 1).sum + 1 := by
    conv_lhs => rw [← hsplit]
    simp
  omega

theorem cppSplit_measure (sep : Char) (s : Str) :
    ((cppSplit sep s).map fun x => x.length + 1).sum ≤ s.length + 1 := by
  unfold cppSplit
  calc ((dropTrailingEmpty (splitOnChar sep s)).map fun x => x.length + 1).sum
      ≤ ((splitOnChar sep s).map fun x => x.length + 1).sum :=
        dropTrailingEmpty_measure_le _
    _ = s.length + 1 := splitOnChar_measure sep s

theorem trimST_length_le (s : Str) : (trimST s).length ≤ s.length := by
  unfold trimST
  simp only [List.length_reverse]
  calc (((s.dropWhile fun c => c = ' ' || c = '\t').reverse.dropWhile
          fun c => c = ' ' || c = '\t')).length
      ≤ (s.dropWhile fun c => c = ' ' || c = '\t').reverse.length :=
        (List.dropWhile_sublist _).length_le
    _ = (s.dropWhile fun c => c = ' ' || c = '\t').length := List.length_reverse _
    _ ≤ s.length := (List.dropWhile_sublist _).length_le

theorem arrayInner_length_le (s : Str) : (arrayInner s).length ≤ s.length - 2 := by
  unfold arrayInner
  by_cases h : s.length ≥ 4 <;>
    simp only [h, if_true, if_false, List.length_take, List.length_drop, reduceIte] <;>
    omega

/-- The final number branch of `Lexer::tokenizeValue` (Lexer.cpp:169-178): attempt
a full floating-point parse, else fail with the type error. -/
def numberTokens (lineNum : Nat) (s : Str) : Except BSONError (List Token) :=
  match stodResult s with
  | some (_, pos) =>
    if pos = s.length then .ok [⟨.numberLit, s, lineNum, 0⟩] else .error .typeError
  | none => .error .typeError

mutual

/-- `Lexer::tokenizeValue` (Lexer.cpp:119-179): trim, then classify the text as
the empty value, a string literal, a boolean keyword, the null keyword, an array
literal (whose interior is split at every comma, each piece tokenized recursively,
with a comma token between pieces), or a number. -/
def tokenizeValue (lineNum : Nat) (s0 : Str) : Except BSONError (List Token) :=
  if (trimST s0).isEmpty then .ok []
  else if ['"'].isPrefixOf (trimST s0) && ['"'].isSuffixOf (trimST s0) then
    .ok [⟨.stringLit, strInner (trimST s0), lineNum, 0⟩]
  else if trimST s0 = "SuperEffective".data then
    .ok [⟨.boolLit, "true".data, lineNum, 0⟩]
  else if trimST s0 = "NotVeryEffective".data then
    .ok [⟨.boolLit, "false".data, lineNum, 0⟩]
  else if trimST s0 = "MissingNo".data then
    .ok [⟨.nullLit, [], lineNum, 0⟩]
  else if h : "<|".data.isPrefixOf (trimST s0) && "|>".data.isSuffixOf (trimST s0) then
    match tokenizeSegs lineNum (cppSplit ',' (arrayInner (trimST s0))) true with
    | .error e => .error e
    | .ok body =>
      .ok (⟨.arrayStart, [], lineNum, 0⟩ :: body ++ [⟨.arrayEnd, [], lineNum, 0⟩])
  else
    match stoiResult (trimST s0) with
    | some (_, pos) =>
      if pos = (trimST s0).length then .ok [⟨.numberLit, trimST s0, lineNum, 0⟩]
      else numberTokens lineNum (trimST s0)
    | none => numberTokens lineNum (trimST s0)
termination_by s0.length
decreasing_by
  simp only [Bool.and_eq_true] at h
  have hpre : "<|".data <+: trimST s0 := List.isPrefixOf_iff_prefix.mp h.1
  have h2 : 2 ≤ (trimST s0).length := by
    have := hpre.length_le
    simpa using this
  have h3 := cppSplit_measure ',' (arrayInner (trimST s0))
  have h4 := arrayInner_length_le (trimST s0)
  have h5 := trimST_length_le s0
  omega

/-- The comma-separated segment loop of the array branch (Lexer.cpp:147-154):
tokenize each segment, with a comma token before every segment but the first. -/
def tokenizeSegs (lineNum : Nat) (segs : List Str) (first : Bool) :
    Except BSONError (List Token) :=
  match segs with
  | [] => .ok []
  | seg :: rest =>
    match tokenizeValue lineNum seg with
    | .error e => .error e
    | .ok ts =>
      match tokenizeSegs lineNum rest false with
      | .error e => .error e
      | .ok ts2 =>
        .ok ((if first then [] else [⟨.comma, [], lineNum, 0⟩]) ++ ts ++ ts2)
termination_by (segs.map fun x => x.length + 1).sum
decreasing_by
  all_goals simp only [List.map_cons, List.sum_cons]
  all_goals omega

end

/-- `Lexer::tokenizeLine` (Lexer.cpp:75-115): classify a (trimmed) line as a
section header of stage 1, 2 or 3, or as a key/value pair, else the syntax error. -/
def tokenizeLine (lineNum : Nat) (line : Str) : Except BSONError (List Token) :=
  if "(o) ".data.isPrefixOf line && " (o)".data.isSuffixOf line then
    .ok [⟨.sectionOpen, [], lineNum, 1⟩, ⟨.identifier, sectionName line, lineNum, 0⟩,
         ⟨.sectionClose, [], lineNum, 1⟩]
  else if "(O) ".data.isPrefixOf line && " (O)".data.isSuffixOf line then
    .ok [⟨.sectionOpen, [], lineNum, 2⟩, ⟨.identifier, sectionName line, lineNum, 0⟩,
         ⟨.sectionClose, [], lineNum, 2⟩]
  else if "(@) ".data.isPrefixOf line && " (@)".data.isSuffixOf line then
    .ok [⟨.sectionOpen, [], lineNum, 3⟩, ⟨.identifier, sectionName line, lineNum, 0⟩,
         ⟨.sectionClose, [], lineNum, 3⟩]
  else
    match matchKV line with
    | some (key, valStr) =>
      match tokenizeValue lineNum valStr with
      | .error e => .error e
      | .ok vts => .ok (⟨.identifier, key, lineNum, 0⟩ :: ⟨.vineWhip, [], lineNum, 0⟩ :: vts)
    | none => .error .syntaxError

/-- The per-line body of `Lexer::tokenize` for every line after the first
(Lexer.cpp:33-65): strip the comment, right-trim, skip empty lines, check the
indentation (tab and multiple-of-4 rules), emit the indent token and the line's
tokens.  The line is assumed already stripped of a trailing carriage return. -/
def processLine (lineNum : Nat) (rawLine : Str) : Except BSONError (List Token) :=
  let l2 := rtrim (takeUntilComment rawLine)
  if l2.isEmpty then .ok []
  else
    let ind := countIndent l2
    if ind.2 then .error .tabError
    else if ind.1 % 4 ≠ 0 then .error .indentationError
    else
      match tokenizeLine lineNum (trimST l2) with
      | .error e => .error e
      | .ok lineToks => .ok (⟨.indent, [], lineNum, ind.1 / 4⟩ :: lineToks)

/-- The loop of `Lexer::tokenize` over all lines after the header line, with
1-based line numbers starting at `n + 1`. -/
def tokLines : List Str → Nat → Except BSONError (List Token)
  | [], _ => .ok []
  | l :: rest, n =>
    match processLine (n + 1) (stripCR l) with
    | .error e => .error e
    | .ok ts =>
      match tokLines rest (n + 1) with
      | .error e => .error e
      | .ok ts2 => .ok (ts ++ ts2)

/-- The header sentinel `"BULBA!"`. -/
def headerStr : Str := "BULBA!".data

/-- `Lexer::tokenize` (Lexer.cpp:12-70): split the input at newlines exactly as
`std::getline` does, require the first line (after stripping a trailing carriage
return, Lexer.cpp:21) to equal the header sentinel, process every further line,
and terminate the stream with the end-of-input token (whose line number is the
number of lines read). -/
def tokenize (content : Str) : Except BSONError (List Token) :=
  let lines := cppSplit '\n' content
  match lines with
  | [] => .ok [⟨.eof, [], 0, 0⟩]
  | first :: rest =>
    if stripCR first = headerStr then
      match tokLines rest 1 with
      | .error e => .error e
      | .ok ts =>
        .ok (⟨.header, headerStr, 1, 0⟩ :: ts ++ [⟨.eof, [], lines.length, 0⟩])
    else .error .headerError

/-- `BSONValue` (BSONParser.hpp:20-39): the closed value union.  `std::map` keys
are kept as a list of pairs sorted by the key order of `std::string` (bytewise,
which for UTF-8 text coincides with code-point order), with unique keys.  The
`double` payload is kept as the exact rational the literal denotes. -/
inductive BSONValue where
  | str (s : Str)
  | int (n : Int)
  | float (q : Rat)
  | bool (b : Bool)
  | null
  | arr (elems : List BSONValue)
  | obj (entries : List (Str × BSONValue))

/-- `BSONMap = std::map<std::string, BSONValue>` (BSONParser.hpp:14). -/
abbrev BSONMap := List (Str × BSONValue)

/-- `std::string::operator<`: bytewise lexicographic comparison. -/
def ltStr : Str → Str → Bool
  | [], [] => false
  | [], _ :: _ => true
  | _ :: _, [] => false
  | a :: as, b :: bs => if a < b then true else if b < a then false else ltStr as bs

/-- `(*map)[key] = val` on a `std::map`: insert at the sorted position, replacing
an existing binding of the same key. -/
def mapInsert (k : Str) (v : BSONValue) : BSONMap → BSONMap
  | [] => [(k, v)]
  | (k', v') :: rest =>
    if ltStr k k' then (k, v) :: (k', v') :: rest
    else if k = k' then (k, v) :: rest
    else (k', v') :: mapInsert k v rest

/-- `std::map::find`-style lookup. -/
def mapLookup (k : Str) : BSONMap → Option BSONValue
  | [] => none
  | (k', v') :: rest => if k = k' then some v' else mapLookup k rest

/-- The reserved key literal rejected by `BSONParser::validateKey`
(BSONParser.cpp:177-179). -/
def reservedKey : Str := "Charizard".data

/-- The float fallback of the `TOKEN_NUMBER` case of
`BSONParser::parseValueFromTokens` (BSONParser.cpp:150-153): `std::stod` on the
stored literal, with no consumed-length check; only a failed conversion reaches
the type error. -/
def parseNumberFloat (lit : Str) : Except BSONError BSONValue :=
  match stodResult lit with
  | some (q, _) => .ok (.float q)
  | none => .error .typeError

/-- The `TOKEN_NUMBER` case of `BSONParser::parseValueFromTokens`
(BSONParser.cpp:144-154): try a full `std::stoi` parse of the literal, else fall
back to `std::stod`. -/
def parseNumber (lit : Str) : Except BSONError BSONValue :=
  match stoiResult lit with
  | some (v, pos) => if pos = lit.length then .ok (.int v) else parseNumberFloat lit
  | none => parseNumberFloat lit

mutual

/-- `BSONParser::parseValueFromTokens` (BSONParser.cpp:137-175): consume one value
from the token stream.  The returned remainder carries the proof that at least one
token was consumed (the C++ version advances the index `i`); it is used for
termination of the parse loop. -/
def parseValueFromTokens : (ts : List Token) →
    Except BSONError (BSONValue × {rest : List Token // rest.length < ts.length})
  | [] => .error .syntaxError
  | t :: rest =>
    match t.type with
    | .stringLit => .ok (.str t.literal, ⟨rest, by simp⟩)
    | .numberLit =>
      match parseNumber t.literal with
      | .error e => .error e
      | .ok v => .ok (v, ⟨rest, by simp⟩)
    | .boolLit => .ok (.bool (t.literal = "true".data), ⟨rest, by simp⟩)
    | .nullLit => .ok (.null, ⟨rest, by simp⟩)
    | .arrayStart =>
      match parseArr rest [] with
      | .error e => .error e
      | .ok (v, ⟨rest2, h2⟩) => .ok (v, ⟨rest2, by simp only [List.length_cons]; omega⟩)
    | _ => .error .typeError
termination_by ts => (ts.length, 0)

/-- The `TOKEN_ARRAY_START` loop of `BSONParser::parseValueFromTokens`
(BSONParser.cpp:157-171): append elements until the array-end token, skipping
comma tokens; running out of tokens first is the syntax error. -/
def parseArr : (ts : List Token) → (acc : List BSONValue) →
    Except BSONError (BSONValue × {rest : List Token // rest.length ≤ ts.length})
  | [], _ => .error .syntaxError
  | t :: rest, acc =>
    if t.type = .arrayEnd then .ok (.arr acc, ⟨rest, by simp⟩)
    else if t.type = .comma then
      match parseArr rest acc with
      | .error e => .error e
      | .ok (v, ⟨r, h⟩) => .ok (v, ⟨r, by simp only [List.length_cons]; omega⟩)
    else
      match parseValueFromTokens (t :: rest) with
      | .error e => .error e
      | .ok (v, ⟨r, h⟩) =>
        match parseArr r (acc ++ [v]) with
        | .error e => .error e
        | .ok (v2, ⟨r2, h2⟩) =>
          .ok (v2, ⟨r2, by simp only [List.length_cons] at h ⊢; omega⟩)
termination_by ts _ => (ts.length, 1)

end

/-!
Fuel-indexed twins of the recursive functions.  The functions above mirror the
C++ recursion exactly and are defined by well-founded recursion, which the
kernel cannot evaluate; the twins below recurse structurally on a fuel counter
and are proved equal to them whenever the fuel exceeds the recursion measure,
so closed instances can be settled by `rfl`.
-/

mutual

/-- Fuel-indexed twin of `tokenizeValue`. -/
def tokenizeValueF : Nat → Nat → Str → Except BSONError (List Token)
  | 0, _, _ => .error .syntaxError
  | fuel + 1, lineNum, s0 =>
    if (trimST s0).isEmpty then .ok []
    else if ['"'].isPrefixOf (trimST s0) && ['"'].isSuffixOf (trimST s0) then
      .ok [⟨.stringLit, strInner (trimST s0), lineNum, 0⟩]
    else if trimST s0 = "SuperEffective".data then
      .ok [⟨.boolLit, "true".data, lineNum, 0⟩]
    else if trimST s0 = "NotVeryEffective".data then
      .ok [⟨.boolLit, "false".data, lineNum, 0⟩]
    else if trimST s0 = "MissingNo".data then
      .ok [⟨.nullLit, [], lineNum, 0⟩]
    else if "<|".data.isPrefixOf (trimST s0) && "|>".data.isSuffixOf (trimST s0) then
      match tokenizeSegsF fuel lineNum (cppSplit ',' (arrayInner (trimST s0))) true with
      | .error e => .error e
      | .ok body =>
        .ok (⟨.arrayStart, [], lineNum, 0⟩ :: body ++ [⟨.arrayEnd, [], lineNum, 0⟩])
    else
      match stoiResult (trimST s0) with
      | some (_, pos) =>
        if pos = (trimST s0).length then .ok [⟨.numberLit, trimST s0, lineNum, 0⟩]
        else numberTokens lineNum (trimST s0)
      | none => numberTokens lineNum (trimST s0)

/-- Fuel-indexed twin of `tokenizeSegs`. -/
def tokenizeSegsF : Nat → Nat → List Str → Bool → Except BSONError (List Token)
  | 0, _, _, _ => .error .syntaxError
  | fuel + 1, lineNum, segs, first =>
    match segs with
    | [] => .ok []
    | seg :: rest =>
      match tokenizeValueF fuel lineNum seg with
      | .error e => .error e
      | .ok ts =>
        match tokenizeSegsF fuel lineNum rest false with
        | .error e => .error e
        | .ok ts2 =>
          .ok ((if first then [] else [⟨.comma, [], lineNum, 0⟩]) ++ ts ++ ts2)

end

theorem cppSplit_nil (sep : Char) : cppSplit sep [] = [] := rfl

mutual

theorem tokenizeValueF_eq : ∀ (fuel lineNum : Nat) (s0 : Str),
    s0.length + 1 ≤ fuel → tokenizeValueF fuel lineNum s0 = tokenizeValue lineNum s0
  | 0, _, s0, h => absurd h (by omega)
  | fuel + 1, lineNum, s0, h => by
    rw [tokenizeValue]
    simp only [tokenizeValueF]
    split_ifs with h1 h2 h3 h4 h5 h6
    · rfl
    · rfl
    · rfl
    · rfl
    · rfl
    · have hm := cppSplit_measure ',' (arrayInner (trimST s0))
      have hi := arrayInner_length_le (trimST s0)
      have ht := trimST_length_le s0
      have hne : trimST s0 ≠ [] := by
        intro hc
        rw [hc] at h1
        exact h1 rfl
      have hlen : 1 ≤ (trimST s0).length := List.length_pos.mpr hne
      by_cases hz : (arrayInner (trimST s0)).length = 0
      · have h0 : ((cppSplit ',' (arrayInner (trimST s0))).map fun x => x.length + 1).sum
            = 0 := by
          rw [List.length_eq_zero.mp hz]
          rfl
        rw [tokenizeSegsF_eq fuel lineNum (cppSplit ',' (arrayInner (trimST s0))) true
          (by omega)]
      · rw [tokenizeSegsF_eq fuel lineNum (cppSplit ',' (arrayInner (trimST s0))) true
          (by omega)]
    · rfl

theorem tokenizeSegsF_eq : ∀ (fuel lineNum : Nat) (segs : List Str) (first : Bool),
    (segs.map fun x => x.length + 1).sum + 1 ≤ fuel →
    tokenizeSegsF fuel lineNum segs first = tokenizeSegs lineNum segs first
  | 0, _, _, _, h => absurd h (by omega)
  | fuel + 1, lineNum, [], first, _ => by
    simp [tokenizeSegs, tokenizeSegsF]
  | fuel + 1, lineNum, seg :: rest, first, h => by
    simp only [List.map_cons, List.sum_cons] at h
    rw [tokenizeSegs]
    simp only [tokenizeSegsF]
    rw [tokenizeValueF_eq fuel lineNum seg (by omega)]
    rw [tokenizeSegsF_eq fuel lineNum rest false (by omega)]

end

/-- The context-stack frame (BSONParser.hpp:56-59).  The C++ frame aliases the
parent's child map through a `shared_ptr`; in this pure embedding the frame
instead records under which `key` the map will sit in its parent, and the
insertion into the parent is performed when the frame is popped.  Because every
insertion in the parser targets only the top frame of the stack, the parent's
binding for `key` cannot be observed or overwritten while the frame is live, so
the final document is the same. -/
structure Frame where
  key : Str
  map : BSONMap
  level : Nat

/-- A single `stack.pop_back()`.  Popping a frame folds its map into the parent
under the frame's key (the C++ version linked them at push time through the
shared pointer).  The head of the list is the top of the stack. -/
def popOnce : List Frame → List Frame
  | top :: parent :: rest =>
    { parent with map := mapInsert top.key (.obj top.map) parent.map } :: rest
  | s => s

/-- `k` iterations of `popOnce`. -/
def popN : Nat → List Frame → List Frame
  | 0, s => s
  | k + 1, s => popN k (popOnce s)

/-- `while (stack.size() > n) stack.pop_back();` (BSONParser.cpp:79-81 and
101-103): the loop body runs exactly `size - n` times (at every call site
`n ≥ 1`, so the root frame is never popped). -/
def truncateTo (n : Nat) (s : List Frame) : List Frame :=
  popN (s.length - n) s

/-- The section-open statement's stack update (BSONParser.cpp:77-91): truncate the
stack to exactly `stage` frames, then push a fresh empty object for the named
section (the C++ version also inserts it into the parent here; the embedding
performs that insertion when the frame is popped, see `Frame`). -/
def sectionStep (name : Str) (stage : Nat) (stack : List Frame) : List Frame :=
  ⟨name, [], stage⟩ :: truncateTo stage stack

/-- The key/value dedent (BSONParser.cpp:99-104): truncate the stack to
`level + 1` frames. -/
def dedentTo (level : Nat) (stack : List Frame) : List Frame :=
  truncateTo (level + 1) stack

/-- `(*currentMap)[key] = val` on the top of the stack (BSONParser.cpp:121-123). -/
def kvInsert (key : Str) (v : BSONValue) : List Frame → List Frame
  | top :: rest => { top with map := mapInsert key v top.map } :: rest
  | [] => []

/-- The token loop of `BSONParser::parse` (BSONParser.cpp:30-130), with the
context stack (head = top) and the `currentLevel` cursor as explicit state.
Statement order, check order and error kinds follow the C++ line by line; the
stage arithmetic `expectedLevel != headerLevel - 1` is `int` arithmetic, hence
the cast to `Int`. -/
def parseLoop : (ts : List Token) → List Frame → Nat → Except BSONError (List Frame)
  | [], stack, _ => .ok stack
  | t :: rest, stack, curr =>
    if t.type = .eof then .ok stack
    else if t.type = .header then parseLoop rest stack curr
    else if t.type = .indent then
      match rest with
      | [] => .ok stack
      | nt :: rest2 =>
        if nt.type = .sectionOpen then
          if (t.level : Int) ≠ (nt.level : Int) - 1 then .error .indentationError
          else if stack.length < nt.level then .error .badgesError
          else
            match rest2 with
            | [] => .error .syntaxError
            | idT :: rest3 =>
              if idT.type ≠ .identifier then .error .syntaxError
              else if idT.literal = reservedKey then .error .reservedKeyError
              else
                match rest3 with
                | [] => .error .syntaxError
                | clT :: rest4 =>
                  if clT.type ≠ .sectionClose then .error .syntaxError
                  else parseLoop rest4 (sectionStep idT.literal nt.level stack) nt.level
        else if nt.type = .identifier then
          if curr < t.level then .error .indentationError
          else if nt.literal = reservedKey then .error .reservedKeyError
          else
            match rest2 with
            | [] => .error .syntaxError
            | vwT :: rest3 =>
              if vwT.type ≠ .vineWhip then .error .syntaxError
              else
                match parseValueFromTokens rest3 with
                | .error e => .error e
                | .ok (v, ⟨rest4, h4⟩) =>
                  if t.level < curr then
                    parseLoop rest4 (kvInsert nt.literal v (dedentTo t.level stack)) t.level
                  else parseLoop rest4 (kvInsert nt.literal v stack) curr
        else .error .syntaxError
    else parseLoop rest stack curr
termination_by ts _ _ => ts.length
decreasing_by
  all_goals simp only [List.length_cons]
  all_goals omega

mutual

/-- Fuel-indexed twin of `parseValueFromTokens` (without the consumed-token proof). -/
def parseValueF : Nat → List Token → Except BSONError (BSONValue × List Token)
  | 0, _ => .error .syntaxError
  | _ + 1, [] => .error .syntaxError
  | fuel + 1, t :: rest =>
    match t.type with
    | .stringLit => .ok (.str t.literal, rest)
    | .numberLit =>
      match parseNumber t.literal with
      | .error e => .error e
      | .ok v => .ok (v, rest)
    | .boolLit => .ok (.bool (t.literal = "true".data), rest)
    | .nullLit => .ok (.null, rest)
    | .arrayStart => parseArrF fuel rest []
    | _ => .error .typeError

/-- Fuel-indexed twin of `parseArr`. -/
def parseArrF : Nat → List Token → List BSONValue → Except BSONError (BSONValue × List Token)
  | 0, _, _ => .error .syntaxError
  | _ + 1, [], _ => .error .syntaxError
  | fuel + 1, t :: rest, acc =>
    if t.type = .arrayEnd then .ok (.arr acc, rest)
    else if t.type = .comma then parseArrF fuel rest acc
    else
      match parseValueF fuel (t :: rest) with
      | .error e => .error e
      | .ok (v, r) => parseArrF fuel r (acc ++ [v])

end

mutual

theorem parseValueF_eq : ∀ (fuel : Nat) (ts : List Token), 2 * ts.length + 2 ≤ fuel →
    parseValueF fuel ts = (parseValueFromTokens ts).map fun p => (p.1, p.2.1)
  | 0, _, h => absurd h (by omega)
  | _ + 1, [], _ => by
    simp [parseValueF, parseValueFromTokens, Except.map]
  | fuel + 1, t :: rest, h => by
    simp only [List.length_cons] at h
    rw [parseValueFromTokens]
    simp only [parseValueF]
    obtain ⟨ty, lit, ln, lv⟩ := t
    cases ty <;> simp only [Except.map]
    case numberLit =>
      cases parseNumber lit <;> simp [Except.map]
    case arrayStart =>
      rw [parseArrF_eq fuel rest [] (by omega)]
      cases parseArr rest [] with
      | error e => simp [Except.map]
      | ok p =>
        obtain ⟨v, r, hr⟩ := p
        simp [Except.map]

theorem parseArrF_eq : ∀ (fuel : Nat) (ts : List Token) (acc : List BSONValue),
    2 * ts.length + 3 ≤ fuel →
    parseArrF fuel ts acc = (parseArr ts acc).map fun p => (p.1, p.2.1)
  | 0, _, _, h => absurd h (by omega)
  | _ + 1, [], acc, _ => by
    simp [parseArrF, parseArr, Except.map]
  | fuel + 1, t :: rest, acc, h => by
    simp only [List.length_cons] at h
    rw [parseArr]
    simp only [parseArrF]
    split_ifs with h1 h2
    · simp [Except.map]
    · rw [parseArrF_eq fuel rest acc (by omega)]
      cases parseArr rest acc with
      | error e => simp [Except.map]
      | ok p =>
        obtain ⟨v, r, hr⟩ := p
        simp [Except.map]
    · rw [parseValueF_eq fuel (t :: rest) (by simp only [List.length_cons]; omega)]
      cases hpv : parseValueFromTokens (t :: rest) with
      | error e => simp [Except.map]
      | ok p =>
        obtain ⟨v, r, hr⟩ := p
        simp only [Except.map]
        rw [parseArrF_eq fuel r (acc ++ [v])
          (by simp only [List.length_cons] at hr; omega)]
        cases parseArr r (acc ++ [v]) with
        | error e => simp [Except.map]
        | ok p2 =>
          obtain ⟨v2, r2, hr2⟩ := p2
          simp [Except.map]

end

/-- The root frame: `stack.push_back({root, 0})` (BSONParser.cpp:27). -/
def rootFrame : Frame := ⟨[], [], 0⟩

/-- Fuel-indexed twin of `parseLoop`. -/
def parseLoopF : Nat → List Token → List Frame → Nat → Except BSONError (List Frame)
  | 0, _, stack, _ => .ok stack
  | fuel + 1, ts, stack, curr =>
    match ts with
    | [] => .ok stack
    | t :: rest =>
      if t.type = .eof then .ok stack
      else if t.type = .header then parseLoopF fuel rest stack curr
      else if t.type = .indent then
        match rest with
        | [] => .ok stack
        | nt :: rest2 =>
          if nt.type = .sectionOpen then
            if (t.level : Int) ≠ (nt.level : Int) - 1 then .error .indentationError
            else if stack.length < nt.level then .error .badgesError
            else
              match rest2 with
              | [] => .error .syntaxError
              | idT :: rest3 =>
                if idT.type ≠ .identifier then .error .syntaxError
                else if idT.literal = reservedKey then .error .reservedKeyError
                else
                  match rest3 with
                  | [] => .error .syntaxError
                  | clT :: rest4 =>
                    if clT.type ≠ .sectionClose then .error .syntaxError
                    else parseLoopF fuel rest4 (sectionStep idT.literal nt.level stack) nt.level
          else if nt.type = .identifier then
            if curr < t.level then .error .indentationError
            else if nt.literal = reservedKey then .error .reservedKeyError
            else
              match rest2 with
              | [] => .error .syntaxError
              | vwT :: rest3 =>
                if vwT.type ≠ .vineWhip then .error .syntaxError
                else
                  match parseValueF (2 * rest3.length + 2) rest3 with
                  | .error e => .error e
                  | .ok (v, rest4) =>
                    if t.level < curr then
                      parseLoopF fuel rest4 (kvInsert nt.literal v (dedentTo t.level stack)) t.level
                    else parseLoopF fuel rest4 (kvInsert nt.literal v stack) curr
          else .error .syntaxError
      else parseLoopF fuel rest stack curr

theorem parseLoopF_eq : ∀ (fuel : Nat) (ts : List Token) (stack : List Frame) (curr : Nat),
    ts.length + 1 ≤ fuel → parseLoopF fuel ts stack curr = parseLoop ts stack curr
  | 0, _, _, _, h => absurd h (by omega)
  | fuel + 1, [], stack, curr, _ => by
    simp [parseLoopF, parseLoop]
  | fuel + 1, t :: rest, stack, curr, h => by
    simp only [List.length_cons] at h
    rw [parseLoop.eq_def]
    simp only [parseLoopF]
    by_cases h1 : t.type = .eof
    · simp only [if_pos h1]
    · simp only [if_neg h1]
      by_cases h2 : t.type = .header
      · simp only [if_pos h2]
        exact parseLoopF_eq fuel rest stack curr (by omega)
      · simp only [if_neg h2]
        by_cases h3 : t.type = .indent
        case neg =>
          simp only [if_neg h3]
          exact parseLoopF_eq fuel rest stack curr (by omega)
        simp only [if_pos h3]
        cases rest with
        | nil => rfl
        | cons nt rest2 =>
          simp only [List.length_cons] at h
          by_cases h4 : nt.type = .sectionOpen
          · simp only [if_pos h4]
            by_cases h5 : (t.level : Int) ≠ (nt.level : Int) - 1
            · simp only [if_pos h5]
            · simp only [if_neg h5]
              by_cases h6 : stack.length < nt.level
              · simp only [if_pos h6]
              · simp only [if_neg h6]
                cases rest2 with
                | nil => rfl
                | cons idT rest3 =>
                  simp only [List.length_cons] at h
                  by_cases h7 : idT.type ≠ .identifier
                  · simp only [if_pos h7]
                  · simp only [if_neg h7]
                    by_cases h8 : idT.literal = reservedKey
                    · simp only [if_pos h8]
                    · simp only [if_neg h8]
                      cases rest3 with
                      | nil => rfl
                      | cons clT rest4 =>
                        simp only [List.length_cons] at h
                        by_cases h9 : clT.type ≠ .sectionClose
                        · simp only [if_pos h9]
                        · simp only [if_neg h9]
                          exact parseLoopF_eq fuel rest4
                            (sectionStep idT.literal nt.level stack) nt.level (by omega)
          · simp only [if_neg h4]
            by_cases h10 : nt.type = .identifier
            case neg => simp only [if_neg h10]
            simp only [if_pos h10]
            by_cases h11 : curr < t.level
            · simp only [if_pos h11]
            · simp only [if_neg h11]
              by_cases h12 : nt.literal = reservedKey
              · simp only [if_pos h12]
              · simp only [if_neg h12]
                cases rest2 with
                | nil => rfl
                | cons vwT rest3 =>
                  simp only [List.length_cons] at h
                  by_cases h13 : vwT.type ≠ .vineWhip
                  · simp only [if_pos h13]
                  · simp only [if_neg h13]
                    rw [parseValueF_eq (2 * rest3.length + 2) rest3 (by omega)]
                    cases parseValueFromTokens rest3 with
                    | error e => simp [Except.map]
                    | ok p =>
                      obtain ⟨v, rest4, hr⟩ := p
                      simp only [Except.map]
                      by_cases h14 : t.level < curr
                      · simp only [if_pos h14]
                        exact parseLoopF_eq fuel rest4
                          (kvInsert nt.literal v (dedentTo t.level stack)) t.level (by omega)
                      · simp only [if_neg h14]
                        exact parseLoopF_eq fuel rest4 (kvInsert nt.literal v stack) curr
                          (by omega)

/-- `return *root;` (BSONParser.cpp:132): fold any still-open frames into the
root and return the root map. -/
def collapse (stack : List Frame) : BSONMap :=
  match truncateTo 1 stack with
  | f :: _ => f.map
  | [] => []

/-- `BSONParser::parse` (BSONParser.cpp:17-133): tokenize, then run the token
loop from the root context and return the root document. -/
def parse (content : Str) : Except BSONError BSONMap :=
  match tokenize content with
  | .error e => .error e
  | .ok ts =>
    match parseLoop ts [rootFrame] 0 with
    | .error e => .error e
    | .ok stack => .ok (collapse stack)

/-- Twin of `tokenizeLine` calling the fuel-indexed value tokenizer. -/
def tokenizeLineF (lineNum : Nat) (line : Str) : Except BSONError (List Token) :=
  if "(o) ".data.isPrefixOf line && " (o)".data.isSuffixOf line then
    .ok [⟨.sectionOpen, [], lineNum, 1⟩, ⟨.identifier, sectionName line, lineNum, 0⟩,
         ⟨.sectionClose, [], lineNum, 1⟩]
  else if "(O) ".data.isPrefixOf line && " (O)".data.isSuffixOf line then
    .ok [⟨.sectionOpen, [], lineNum, 2⟩, ⟨.identifier, sectionName line, lineNum, 0⟩,
         ⟨.sectionClose, [], lineNum, 2⟩]
  else if "(@) ".data.isPrefixOf line && " (@)".data.isSuffixOf line then
    .ok [⟨.sectionOpen, [], lineNum, 3⟩, ⟨.identifier, sectionName line, lineNum, 0⟩,
         ⟨.sectionClose, [], lineNum, 3⟩]
  else
    match matchKV line with
    | some (key, valStr) =>
      match tokenizeValueF (valStr.length + 1) lineNum valStr with
      | .error e => .error e
      | .ok vts => .ok (⟨.identifier, key, lineNum, 0⟩ :: ⟨.vineWhip, [], lineNum, 0⟩ :: vts)
    | none => .error .syntaxError

theorem tokenizeLineF_eq (lineNum : Nat) (line : Str) :
    tokenizeLineF lineNum line = tokenizeLine lineNum line := by
  unfold tokenizeLineF tokenizeLine
  cases matchKV line with
  | none => rfl
  | some kv =>
    obtain ⟨key, valStr⟩ := kv
    dsimp only
    rw [tokenizeValueF_eq (valStr.length + 1) lineNum valStr (by omega)]

/-- Twin of `processLine`. -/
def processLineF (lineNum : Nat) (rawLine : Str) : Except BSONError (List Token) :=
  let l2 := rtrim (takeUntilComment rawLine)
  if l2.isEmpty then .ok []
  else
    let ind := countIndent l2
    if ind.2 then .error .tabError
    else if ind.1 % 4 ≠ 0 then .error .indentationError
    else
      match tokenizeLineF lineNum (trimST l2) with
      | .error e => .error e
      | .ok lineToks => .ok (⟨.indent, [], lineNum, ind.1 / 4⟩ :: lineToks)

theorem processLineF_eq (lineNum : Nat) (rawLine : Str) :
    processLineF lineNum rawLine = processLine lineNum rawLine := by
  unfold processLineF processLine
  simp only [tokenizeLineF_eq]

/-- Twin of `tokLines`. -/
def tokLinesF : List Str → Nat → Except BSONError (List Token)
  | [], _ => .ok []
  | l :: rest, n =>
    match processLineF (n + 1) (stripCR l) with
    | .error e => .error e
    | .ok ts =>
      match tokLinesF rest (n + 1) with
      | .error e => .error e
      | .ok ts2 => .ok (ts ++ ts2)

theorem tokLinesF_eq : ∀ (lines : List Str) (n : Nat), tokLinesF lines n = tokLines lines n
  | [], _ => rfl
  | l :: rest, n => by
    unfold tokLinesF tokLines
    simp only [processLineF_eq, tokLinesF_eq rest (n + 1)]

/-- Twin of `tokenize`. -/
def tokenizeF (content : Str) : Except BSONError (List Token) :=
  let lines := cppSplit '\n' content
  match lines with
  | [] => .ok [⟨.eof, [], 0, 0⟩]
  | first :: rest =>
    if stripCR first = headerStr then
      match tokLinesF rest 1 with
      | .error e => .error e
      | .ok ts =>
        .ok (⟨.header, headerStr, 1, 0⟩ :: ts ++ [⟨.eof, [], lines.length, 0⟩])
    else .error .headerError

theorem tokenizeF_eq (content : Str) : tokenizeF content = tokenize content := by
  unfold tokenizeF tokenize
  cases cppSplit '\n' content with
  | nil => rfl
  | cons first rest =>
    simp only [tokLinesF_eq]

/-- Executable twin of `parse`: kernel-reducible on closed inputs. -/
def parseF (content : Str) : Except BSONError BSONMap :=
  match tokenizeF content with
  | .error e => .error e
  | .ok ts =>
    match parseLoopF (ts.length + 1) ts [rootFrame] 0 with
    | .error e => .error e
    | .ok stack => .ok (collapse stack)

theorem parse_eq_parseF (content : Str) : parse content = parseF content := by
  unfold parse parseF
  rw [tokenizeF_eq]
  cases tokenize content with
  | error e => rfl
  | ok ts =>
    dsimp only
    rw [parseLoopF_eq (ts.length + 1) ts [rootFrame] 0 (by omega)]

/-!  The context-stack shape invariant (spec §3): between statements the stack
holds exactly one frame per open section level, frame `i` (from the bottom) at
level `i`, so its length is the deepest open level plus one. -/

/-- The descending list of levels `[c, c-1, ..., 1, 0]`. -/
def levelsDown : Nat → List Nat
  | 0 => [0]
  | n + 1 => (n + 1) :: levelsDown n

/-- The stack-shape invariant: the frames' levels, top first, are exactly
`curr, curr-1, ..., 0`. -/
def StackInv (stack : List Frame) (curr : Nat) : Prop :=
  stack.map Frame.level = levelsDown curr

theorem levelsDown_length (n : Nat) : (levelsDown n).length = n + 1 := by
  induction n with
  | zero => rfl
  | succ n ih => simp [levelsDown, ih]

theorem levelsDown_drop : ∀ (n m : Nat), m ≤ n →
    (levelsDown n).drop (n - m) = levelsDown m
  | 0, 0, _ => rfl
  | n + 1, m, hm => by
    by_cases hm2 : m = n + 1
    · subst hm2
      simp
    · have hm3 : m ≤ n := by omega
      have : n + 1 - m = (n - m) + 1 := by omega
      rw [this, levelsDown, List.drop_succ_cons]
      exact levelsDown_drop n m hm3

theorem StackInv_length {stack : List Frame} {curr : Nat} (h : StackInv stack curr) :
    stack.length = curr + 1 := by
  have := congrArg List.length h
  simpa [levelsDown_length] using this

theorem popN_map_level : ∀ (k : Nat) (s : List Frame), k + 1 ≤ s.length →
    (popN k s).map Frame.level = (s.map Frame.level).drop k ∧
      (popN k s).length = s.length - k
  | 0, s, _ => by simp [popN]
  | k + 1, [], h => by simp at h
  | k + 1, [f], h => by simp at h
  | k + 1, top :: parent :: t, h => by
    simp only [List.length_cons] at h
    have step := popN_map_level k
      ({ parent with map := mapInsert top.key (.obj top.map) parent.map } :: t)
      (by simp only [List.length_cons]; omega)
    simp only [popN, popOnce]
    constructor
    · rw [step.1]
      simp
    · rw [step.2]
      simp only [List.length_cons]
      omega

theorem truncateTo_map_level {n : Nat} {stack : List Frame} (h1 : 1 ≤ n)
    (h2 : n ≤ stack.length) :
    (truncateTo n stack).map Frame.level = (stack.map Frame.level).drop (stack.length - n) := by
  unfold truncateTo
  exact (popN_map_level (stack.length - n) stack (by omega)).1

theorem StackInv_sectionStep {stack : List Frame} {curr : Nat} (name : Str) (S : Nat)
    (hinv : StackInv stack curr) (h1 : 1 ≤ S) (h2 : S ≤ stack.length) :
    StackInv (sectionStep name S stack) S := by
  have hlen := StackInv_length hinv
  unfold StackInv sectionStep
  simp only [List.map_cons]
  rw [truncateTo_map_level h1 h2, hinv, hlen]
  have hS : S = (S - 1) + 1 := by omega
  rw [hS, levelsDown]
  have : curr + 1 - ((S - 1) + 1) = curr - (S - 1) := by omega
  rw [this, levelsDown_drop curr (S - 1) (by omega)]

theorem StackInv_dedent {stack : List Frame} {curr : Nat} (L : Nat)
    (hinv : StackInv stack curr) (hL : L < curr) :
    StackInv (dedentTo L stack) L := by
  have hlen := StackInv_length hinv
  unfold StackInv dedentTo
  rw [truncateTo_map_level (by omega) (by omega), hinv, hlen]
  have : curr + 1 - (L + 1) = curr - L := by omega
  rw [this, levelsDown_drop curr L (by omega)]

theorem StackInv_kvInsert {stack : List Frame} {curr : Nat} (key : Str) (v : BSONValue)
    (hinv : StackInv stack curr) : StackInv (kvInsert key v stack) curr := by
  cases stack with
  | nil => exact hinv
  | cons top rest =>
    unfold StackInv at hinv ⊢
    simpa using hinv

/-!  Well-formedness of lexer-produced tokens: every token emitted for a value
carries the line it came from, is never a header or indent token, and a number
token's literal was validated by a full `stoi` or full `stod` parse. -/

/-- The lexer's `stoi` check succeeded and consumed the whole text (Lexer.cpp:161-167). -/
def stoiComplete (s : Str) : Bool :=
  match stoiResult s with
  | some (_, pos) => pos == s.length
  | none => false

/-- The lexer's `stod` check succeeded and consumed the whole text (Lexer.cpp:169-176). -/
def stodComplete (s : Str) : Bool :=
  match stodResult s with
  | some (_, pos) => pos == s.length
  | none => false

/-- The lexer's acceptance condition for a number literal. -/
def numOk (s : Str) : Bool := stoiComplete s || stodComplete s

/-- The number branch of the parser's value grammar never fails on a literal the
lexer accepted: a full `stoi` re-parse yields an `Int`, and otherwise the `stod`
conversion (which the lexer saw succeed) yields a `Float`. -/
theorem parseNumber_ok_of_numOk {s : Str} (h : numOk s = true) :
    ∃ v, parseNumber s = .ok v := by
  unfold numOk stoiComplete stodComplete at h
  unfold parseNumber parseNumberFloat
  cases hsi : stoiResult s with
  | some p =>
    obtain ⟨v, pos⟩ := p
    by_cases hp : pos = s.length
    · exact ⟨.int v, by simp [hp]⟩
    · rw [hsi] at h
      simp only [Bool.or_eq_true, beq_iff_eq] at h
      rcases h with h | h

      · exact absurd h hp
      · cases hsd : stodResult s with
        | some q => exact ⟨.float q.1, by simp [hp, hsd]⟩
        | none => rw [hsd] at h; simp at h
  | none =>
    rw [hsi] at h
    simp only [Bool.or_eq_true] at h
    rcases h with h | h
    · simp at h
    · cases hsd : stodResult s with
      | some q => exact ⟨.float q.1, by simp [hsd]⟩
      | none => rw [hsd] at h; simp at h

/-- Well-formedness of one value token. -/
def valueTokOk (lineNum : Nat) (t : Token) : Prop :=
  t.line = lineNum ∧ t.type ≠ .header ∧ t.type ≠ .indent ∧
    (t.type = .numberLit → numOk t.literal = true)

mutual

theorem tokenizeValueF_tokOk : ∀ (fuel lineNum : Nat) (s0 : Str) (out : List Token),
    tokenizeValueF fuel lineNum s0 = .ok out → ∀ t ∈ out, valueTokOk lineNum t
  | 0, _, _, _, h => by simp [tokenizeValueF] at h
  | fuel + 1, lineNum, s0, out, h => by
    simp only [tokenizeValueF] at h
    split_ifs at h with h1 h2 h3 h4 h5 h6
    · obtain rfl : ([] : List Token) = out := by simpa using h
      intro t ht
      simp at ht
    · obtain rfl : _ = out := by simpa using h
      intro t ht
      simp only [List.mem_singleton] at ht
      subst ht
      exact ⟨rfl, by simp, by simp, by intro hc; simp at hc⟩
    · obtain rfl : _ = out := by simpa using h
      intro t ht
      simp only [List.mem_singleton] at ht
      subst ht
      exact ⟨rfl, by simp, by simp, by intro hc; simp at hc⟩
    · obtain rfl : _ = out := by simpa using h
      intro t ht
      simp only [List.mem_singleton] at ht
      subst ht
      exact ⟨rfl, by simp, by simp, by intro hc; simp at hc⟩
    · obtain rfl : _ = out := by simpa using h
      intro t ht
      simp only [List.mem_singleton] at ht
      subst ht
      exact ⟨rfl, by simp, by simp, by intro hc; simp at hc⟩
    · cases hseg : tokenizeSegsF fuel lineNum (cppSplit ',' (arrayInner (trimST s0))) true with
      | error e => rw [hseg] at h; simp at h
      | ok body =>
        rw [hseg] at h
        simp only [Except.ok.injEq] at h
        subst h
        intro t ht
        simp only [List.mem_cons, List.mem_append, List.mem_singleton] at ht
        rcases ht with (rfl | ht) | (rfl | hx)
        · exact ⟨rfl, by simp, by simp, by intro hc; simp at hc⟩
        · exact tokenizeSegsF_tokOk fuel lineNum _ true body hseg t ht
        · exact ⟨rfl, by simp, by simp, by intro hc; simp at hc⟩
        · simp at hx
    · cases hsi : stoiResult (trimST s0) with
      | some p =>
        obtain ⟨v, pos⟩ := p
        rw [hsi] at h
        simp only at h
        by_cases hp : pos = (trimST s0).length
        · rw [if_pos hp] at h
          simp only [Except.ok.injEq] at h
          subst h
          intro t ht
          simp only [List.mem_singleton] at ht
          subst ht
          refine ⟨rfl, by simp, by simp, fun _ => ?_⟩
          unfold numOk stoiComplete
          rw [hsi]
          simp [hp]
        · rw [if_neg hp] at h
          unfold numberTokens at h
          cases hsd : stodResult (trimST s0) with
          | some q =>
            obtain ⟨qv, qpos⟩ := q
            rw [hsd] at h
            simp only at h
            by_cases hq : qpos = (trimST s0).length
            · rw [if_pos hq] at h
              simp only [Except.ok.injEq] at h
              subst h
              intro t ht
              simp only [List.mem_singleton] at ht
              subst ht
              refine ⟨rfl, by simp, by simp, fun _ => ?_⟩
              unfold numOk stodComplete
              rw [hsd]
              simp [hq]
            · rw [if_neg hq] at h
              simp at h
          | none => rw [hsd] at h; simp at h
      | none =>
        rw [hsi] at h
        simp only at h
        unfold numberTokens at h
        cases hsd : stodResult (trimST s0) with
        | some q =>
          obtain ⟨qv, qpos⟩ := q
          rw [hsd] at h
          simp only at h
          by_cases hq : qpos = (trimST s0).length
          · rw [if_pos hq] at h
            simp only [Except.ok.injEq] at h
            subst h
            intro t ht
            simp only [List.mem_singleton] at ht
            subst ht
            refine ⟨rfl, by simp, by simp, fun _ => ?_⟩
            unfold numOk stodComplete
            rw [hsd]
            simp [hq]
          · rw [if_neg hq] at h
            simp at h
        | none => rw [hsd] at h; simp at h

theorem tokenizeSegsF_tokOk : ∀ (fuel lineNum : Nat) (segs : List Str) (first : Bool)
    (out : List Token),
    tokenizeSegsF fuel lineNum segs first = .ok out → ∀ t ∈ out, valueTokOk lineNum t
  | 0, _, _, _, _, h => by simp [tokenizeSegsF] at h
  | fuel + 1, lineNum, [], first, out, h => by
    simp only [tokenizeSegsF, Except.ok.injEq] at h
    subst h
    intro t ht
    simp at ht
  | fuel + 1, lineNum, seg :: rest, first, out, h => by
    simp only [tokenizeSegsF] at h
    cases hv : tokenizeValueF fuel lineNum seg with
    | error e => rw [hv] at h; simp at h
    | ok ts =>
      rw [hv] at h
      cases hs : tokenizeSegsF fuel lineNum rest false with
      | error e => rw [hs] at h; simp at h
      | ok ts2 =>
        rw [hs] at h
        simp only [Except.ok.injEq] at h
        subst h
        intro t ht
        simp only [List.mem_append] at ht
        rcases ht with (ht | ht) | ht
        · by_cases hf : first = true
          · rw [hf] at ht
            simp at ht
          · have : first = false := by
              cases first
              · rfl
              · exact absurd rfl hf
            rw [this] at ht
            simp only [if_neg (by simp : ¬(false = true)), List.mem_singleton] at ht
            subst ht
            exact ⟨rfl, by simp, by simp, by intro hc; simp at hc⟩
        · exact tokenizeValueF_tokOk fuel lineNum seg ts hv t ht
        · exact tokenizeSegsF_tokOk fuel lineNum rest false ts2 hs t ht

end

theorem tokenizeValue_tokOk {lineNum : Nat} {s0 : Str} {out : List Token}
    (h : tokenizeValue lineNum s0 = .ok out) : ∀ t ∈ out, valueTokOk lineNum t := by
  rw [← tokenizeValueF_eq (s0.length + 1) lineNum s0 (by omega)] at h
  exact tokenizeValueF_tokOk _ lineNum s0 out h

/-- Well-formedness of one token of a content line (the indent token included). -/
def lineTokOk (lineNum : Nat) (t : Token) : Prop :=
  t.line = lineNum ∧ t.type ≠ .header ∧ (t.type = .numberLit → numOk t.literal = true)

theorem tokenizeLine_tokOk {lineNum : Nat} {line : Str} {out : List Token}
    (h : tokenizeLine lineNum line = .ok out) : ∀ t ∈ out, lineTokOk lineNum t := by
  unfold tokenizeLine at h
  split_ifs at h with h1 h2 h3
  · obtain rfl : _ = out := by simpa using h
    intro t ht
    simp only [List.mem_cons, List.mem_singleton] at ht
    rcases ht with rfl | rfl | rfl | hx
    · exact ⟨rfl, by simp, by intro hc; simp at hc⟩
    · exact ⟨rfl, by simp, by intro hc; simp at hc⟩
    · exact ⟨rfl, by simp, by intro hc; simp at hc⟩
    · simp at hx
  · obtain rfl : _ = out := by simpa using h
    intro t ht
    simp only [List.mem_cons, List.mem_singleton] at ht
    rcases ht with rfl | rfl | rfl | hx
    · exact ⟨rfl, by simp, by intro hc; simp at hc⟩
    · exact ⟨rfl, by simp, by intro hc; simp at hc⟩
    · exact ⟨rfl, by simp, by intro hc; simp at hc⟩
    · simp at hx
  · obtain rfl : _ = out := by simpa using h
    intro t ht
    simp only [List.mem_cons, List.mem_singleton] at ht
    rcases ht with rfl | rfl | rfl | hx
    · exact ⟨rfl, by simp, by intro hc; simp at hc⟩
    · exact ⟨rfl, by simp, by intro hc; simp at hc⟩
    · exact ⟨rfl, by simp, by intro hc; simp at hc⟩
    · simp at hx
  · cases hkv : matchKV line with
    | none => rw [hkv] at h; simp at h
    | some kv =>
      obtain ⟨key, valStr⟩ := kv
      rw [hkv] at h
      simp only at h
      cases hv : tokenizeValue lineNum valStr with
      | error e => rw [hv] at h; simp at h
      | ok vts =>
        rw [hv] at h
        simp only [Except.ok.injEq] at h
        subst h
        intro t ht
        simp only [List.mem_cons] at ht
        rcases ht with rfl | rfl | ht
        · exact ⟨rfl, by simp, by intro hc; simp at hc⟩
        · exact ⟨rfl, by simp, by intro hc; simp at hc⟩
        · obtain ⟨hl, hh, hi, hn⟩ := tokenizeValue_tokOk hv t ht
          exact ⟨hl, hh, hn⟩

theorem processLine_tokOk {lineNum : Nat} {raw : Str} {out : List Token}
    (h : processLine lineNum raw = .ok out) : ∀ t ∈ out, lineTokOk lineNum t := by
  rw [processLine.eq_def] at h
  dsimp only at h
  split_ifs at h with h1 h2 h3
  · obtain rfl : ([] : List Token) = out := by simpa using h
    intro t ht
    simp at ht
  · cases hl : tokenizeLine lineNum (trimST (rtrim (takeUntilComment raw))) with
    | error e => rw [hl] at h; simp at h
    | ok lineToks =>
      rw [hl] at h
      simp only [Except.ok.injEq] at h
      subst h
      intro t ht
      simp only [List.mem_cons] at ht
      rcases ht with rfl | ht
      · exact ⟨rfl, by simp, by intro hc; simp at hc⟩
      · exact tokenizeLine_tokOk hl t ht

theorem tokLines_tokOk : ∀ (lines : List Str) (n : Nat) (out : List Token),
    tokLines lines n = .ok out →
    ∀ t ∈ out, n + 1 ≤ t.line ∧ t.type ≠ .header ∧
      (t.type = .numberLit → numOk t.literal = true)
  | [], n, out, h => by
    obtain rfl : ([] : List Token) = out := by simpa [tokLines] using h
    intro t ht
    simp at ht
  | l :: rest, n, out, h => by
    simp only [tokLines] at h
    cases hp : processLine (n + 1) (stripCR l) with
    | error e => rw [hp] at h; simp at h
    | ok ts =>
      rw [hp] at h
      cases hr : tokLines rest (n + 1) with
      | error e => rw [hr] at h; simp at h
      | ok ts2 =>
        rw [hr] at h
        simp only [Except.ok.injEq] at h
        subst h
        intro t ht
        simp only [List.mem_append] at ht
        rcases ht with ht | ht
        · obtain ⟨hl, hh, hn⟩ := processLine_tokOk hp t ht
          exact ⟨by omega, hh, hn⟩
        · obtain ⟨hl, hh, hn⟩ := tokLines_tokOk rest (n + 1) ts2 hr t ht
          exact ⟨by omega, hh, hn⟩

/-- Shape of a successful tokenization when the input has at least one line:
the first line matched the header sentinel (after carriage-return stripping),
and the stream is one header token, the body lines' tokens, and the final
end-of-input token. -/
theorem tokenize_shape {content first : Str} {rest : List Str} {ts : List Token}
    (hsplit : cppSplit '\n' content = first :: rest) (h : tokenize content = .ok ts) :
    stripCR first = headerStr ∧
    ∃ body, tokLines rest 1 = .ok body ∧
      ts = ⟨.header, headerStr, 1, 0⟩ :: body ++ [⟨.eof, [], (first :: rest).length, 0⟩] := by
  rw [tokenize.eq_def, hsplit] at h
  dsimp only at h
  by_cases hh : stripCR first = headerStr
  · rw [if_pos hh] at h
    refine ⟨hh, ?_⟩
    cases hb : tokLines rest 1 with
    | error e => rw [hb] at h; simp at h
    | ok body =>
      rw [hb] at h
      simp only [Except.ok.injEq] at h
      exact ⟨body, rfl, h.symm⟩
  · rw [if_neg hh] at h
    simp at h

/-- If the first line does not match the header sentinel, tokenization fails
with the header error. -/
theorem tokenize_headerError {content first : Str} {rest : List Str}
    (hsplit : cppSplit '\n' content = first :: rest) (hh : stripCR first ≠ headerStr) :
    tokenize content = .error .headerError := by
  rw [tokenize.eq_def, hsplit]
  dsimp only
  rw [if_neg hh]

/-- Every number token of a successful tokenization passed a full `stoi` or a
full `stod` validation in the lexer. -/
theorem tokenize_numOk {content : Str} {ts : List Token} (h : tokenize content = .ok ts) :
    ∀ t ∈ ts, t.type = .numberLit → numOk t.literal = true := by
  cases hsplit : cppSplit '\n' content with
  | nil =>
    rw [tokenize.eq_def, hsplit] at h
    dsimp only at h
    simp only [Except.ok.injEq] at h
    subst h
    intro t ht
    simp only [List.mem_singleton] at ht
    subst ht
    intro hc
    simp at hc
  | cons first rest =>
    obtain ⟨hh, body, hb, rfl⟩ := tokenize_shape hsplit h
    intro t ht
    simp only [List.mem_cons, List.mem_append, List.mem_singleton] at ht
    rcases ht with (rfl | ht) | (rfl | hx)
    · intro hc; simp at hc
    · exact (tokLines_tokOk rest 1 body hb t ht).2.2
    · intro hc; simp at hc
    · simp at hx

/-!  The reserved-key invariant: no accepted document contains the forbidden
key (`"Charizard"`) anywhere, as a key or section name. -/

mutual

/-- No key of any object inside the value equals the reserved key. -/
def noRKV : BSONValue → Bool
  | .arr es => noRKL es
  | .obj m => noRKM m
  | _ => true

/-- `noRKV` over a list of values. -/
def noRKL : List BSONValue → Bool
  | [] => true
  | v :: vs => noRKV v && noRKL vs

/-- No key of the map (recursively) equals the reserved key. -/
def noRKM : List (Str × BSONValue) → Bool
  | [] => true
  | (k, v) :: rest => !(k == reservedKey) && noRKV v && noRKM rest

end

theorem mapInsert_noRKM {k : Str} {v : BSONValue} {m : BSONMap}
    (hk : k ≠ reservedKey) (hv : noRKV v = true) (hm : noRKM m = true) :
    noRKM (mapInsert k v m) = true := by
  induction m with
  | nil =>
    simp only [mapInsert, noRKM, noRKL]
    simp [hk, hv]
  | cons p rest ih =>
    obtain ⟨k', v'⟩ := p
    simp only [noRKM, Bool.and_eq_true, Bool.not_eq_true'] at hm
    obtain ⟨⟨hk', hv'⟩, hrest⟩ := hm
    simp only [mapInsert]
    split_ifs with hlt heq
    · simp only [noRKM, Bool.and_eq_true, Bool.not_eq_true']
      exact ⟨⟨by simp [hk], hv⟩, by simp [noRKM, hk', hv', hrest]⟩
    · simp only [noRKM, Bool.and_eq_true, Bool.not_eq_true']
      exact ⟨⟨by simp [hk], hv⟩, hrest⟩
    · simp only [noRKM, Bool.and_eq_true, Bool.not_eq_true']
      exact ⟨⟨hk', hv'⟩, ih hrest⟩

mutual

theorem parseValueF_noRK : ∀ (fuel : Nat) (ts : List Token) (v : BSONValue)
    (r : List Token), parseValueF fuel ts = .ok (v, r) → noRKV v = true
  | 0, _, _, _, h => by simp [parseValueF] at h
  | _ + 1, [], _, _, h => by simp [parseValueF] at h
  | fuel + 1, t :: rest, v, r, h => by
    simp only [parseValueF] at h
    cases htt : t.type <;> rw [htt] at h <;> simp only at h <;>
      try exact Except.noConfusion h
    case stringLit =>
      simp only [Except.ok.injEq, Prod.mk.injEq] at h
      rw [← h.1]
      rfl
    case numberLit =>
      cases hn : parseNumber t.literal with
      | error e => rw [hn] at h; simp at h
      | ok nv =>
        rw [hn] at h
        simp only [Except.ok.injEq, Prod.mk.injEq] at h
        rw [← h.1]
        unfold parseNumber parseNumberFloat at hn
        cases hsi : stoiResult t.literal with
        | some p =>
          rw [hsi] at hn
          obtain ⟨iv, pos⟩ := p
          simp only at hn
          by_cases hp : pos = t.literal.length
          · rw [if_pos hp] at hn
            simp only [Except.ok.injEq] at hn
            rw [← hn]
            rfl
          · rw [if_neg hp] at hn
            cases hsd : stodResult t.literal with
            | some q =>
              rw [hsd] at hn
              simp only [Except.ok.injEq] at hn
              rw [← hn]
              rfl
            | none => rw [hsd] at hn; simp at hn
        | none =>
          rw [hsi] at hn
          simp only at hn
          cases hsd : stodResult t.literal with
          | some q =>
            rw [hsd] at hn
            simp only [Except.ok.injEq] at hn
            rw [← hn]
            rfl
          | none => rw [hsd] at hn; simp at hn
    case boolLit =>
      simp only [Except.ok.injEq, Prod.mk.injEq] at h
      rw [← h.1]
      rfl
    case nullLit =>
      simp only [Except.ok.injEq, Prod.mk.injEq] at h
      rw [← h.1]
      rfl
    case arrayStart =>
      exact parseArrF_noRK fuel rest [] v r h rfl

theorem parseArrF_noRK : ∀ (fuel : Nat) (ts : List Token) (acc : List BSONValue)
    (v : BSONValue) (r : List Token),
    parseArrF fuel ts acc = .ok (v, r) → noRKL acc = true → noRKV v = true
  | 0, _, _, _, _, h, _ => by simp [parseArrF] at h
  | _ + 1, [], _, _, _, h, _ => by simp [parseArrF] at h
  | fuel + 1, t :: rest, acc, v, r, h, hacc => by
    simp only [parseArrF] at h
    split_ifs at h with h1 h2
    · simp only [Except.ok.injEq, Prod.mk.injEq] at h
      rw [← h.1]
      simpa [noRKV] using hacc
    · exact parseArrF_noRK fuel rest acc v r h hacc
    · cases hpv : parseValueF fuel (t :: rest) with
      | error e => rw [hpv] at h; simp at h
      | ok p =>
        obtain ⟨v1, r1⟩ := p
        rw [hpv] at h
        simp only at h
        refine parseArrF_noRK fuel r1 (acc ++ [v1]) v r h ?_
        have hv1 := parseValueF_noRK fuel (t :: rest) v1 r1 hpv
        clear h hpv
        induction acc with
        | nil => simp [noRKL, hv1]
        | cons a rest2 ih =>
          simp only [noRKL, Bool.and_eq_true] at hacc ⊢
          exact ⟨hacc.1, ih hacc.2⟩

end

/-- A frame whose key and map are free of the reserved key. -/
def frameOk (f : Frame) : Bool := !(f.key == reservedKey) && noRKM f.map

/-- Every frame of the stack is free of the reserved key. -/
def stackClean (s : List Frame) : Bool := s.all frameOk

theorem popOnce_clean {s : List Frame} (h : stackClean s = true) :
    stackClean (popOnce s) = true := by
  cases s with
  | nil => exact h
  | cons top rest =>
    cases rest with
    | nil => exact h
    | cons parent t =>
      simp only [stackClean, popOnce, List.all_cons, Bool.and_eq_true, frameOk,
        Bool.not_eq_true'] at h ⊢
      obtain ⟨⟨hk1, hm1⟩, ⟨hk2, hm2⟩, ht⟩ := h
      refine ⟨⟨hk2, ?_⟩, ht⟩
      exact mapInsert_noRKM (by simpa using hk1) (by simpa [noRKV] using hm1) hm2

theorem popN_clean : ∀ (k : Nat) {s : List Frame}, stackClean s = true →
    stackClean (popN k s) = true
  | 0, _, h => h
  | k + 1, s, h => popN_clean k (popOnce_clean h)

theorem truncateTo_clean {n : Nat} {s : List Frame} (h : stackClean s = true) :
    stackClean (truncateTo n s) = true :=
  popN_clean _ h

theorem sectionStep_clean {name : Str} {stage : Nat} {s : List Frame}
    (hname : name ≠ reservedKey) (h : stackClean s = true) :
    stackClean (sectionStep name stage s) = true := by
  simp only [stackClean, sectionStep, List.all_cons, Bool.and_eq_true]
  exact ⟨by simp [frameOk, hname, noRKM], truncateTo_clean h⟩

theorem kvInsert_clean {key : Str} {v : BSONValue} {s : List Frame}
    (hkey : key ≠ reservedKey) (hv : noRKV v = true) (h : stackClean s = true) :
    stackClean (kvInsert key v s) = true := by
  cases s with
  | nil => exact h
  | cons top rest =>
    simp only [stackClean, kvInsert, List.all_cons, Bool.and_eq_true, frameOk,
      Bool.not_eq_true'] at h ⊢
    exact ⟨⟨h.1.1, mapInsert_noRKM hkey hv h.1.2⟩, h.2⟩

theorem parseLoopF_clean : ∀ (fuel : Nat) (ts : List Token) (stack : List Frame)
    (curr : Nat) (out : List Frame), parseLoopF fuel ts stack curr = .ok out →
    stackClean stack = true → stackClean out = true
  | 0, _, stack, _, out, h, hc => by
    simp only [parseLoopF, Except.ok.injEq] at h
    rw [← h]
    exact hc
  | fuel + 1, [], stack, _, out, h, hc => by
    simp only [parseLoopF, Except.ok.injEq] at h
    rw [← h]
    exact hc
  | fuel + 1, t :: rest, stack, curr, out, h, hc => by
    simp only [parseLoopF] at h
    by_cases h1 : t.type = .eof
    · rw [if_pos h1] at h
      simp only [Except.ok.injEq] at h
      rw [← h]
      exact hc
    · rw [if_neg h1] at h
      by_cases h2 : t.type = .header
      · rw [if_pos h2] at h
        exact parseLoopF_clean fuel rest stack curr out h hc
      · rw [if_neg h2] at h
        by_cases h3 : t.type = .indent
        case neg =>
          rw [if_neg h3] at h
          exact parseLoopF_clean fuel rest stack curr out h hc
        rw [if_pos h3] at h
        cases rest with
        | nil =>
          simp only [Except.ok.injEq] at h
          rw [← h]
          exact hc
        | cons nt rest2 =>
          simp only at h
          by_cases h4 : nt.type = .sectionOpen
          · rw [if_pos h4] at h
            by_cases h5 : (t.level : Int) ≠ (nt.level : Int) - 1
            · rw [if_pos h5] at h
              simp at h
            · rw [if_neg h5] at h
              by_cases h6 : stack.length < nt.level
              · rw [if_pos h6] at h
                simp at h
              · rw [if_neg h6] at h
                cases rest2 with
                | nil => simp at h
                | cons idT rest3 =>
                  simp only at h
                  by_cases h7 : idT.type ≠ .identifier
                  · rw [if_pos h7] at h
                    simp at h
                  · rw [if_neg h7] at h
                    by_cases h8 : idT.literal = reservedKey
                    · rw [if_pos h8] at h
                      simp at h
                    · rw [if_neg h8] at h
                      cases rest3 with
                      | nil => simp at h
                      | cons clT rest4 =>
                        simp only at h
                        by_cases h9 : clT.type ≠ .sectionClose
                        · rw [if_pos h9] at h
                          simp at h
                        · rw [if_neg h9] at h
                          exact parseLoopF_clean fuel rest4 _ nt.level out h
                            (sectionStep_clean h8 hc)
          · rw [if_neg h4] at h
            by_cases h10 : nt.type = .identifier
            case neg =>
              rw [if_neg h10] at h
              simp at h
            rw [if_pos h10] at h
            by_cases h11 : curr < t.level
            · rw [if_pos h11] at h
              simp at h
            · rw [if_neg h11] at h
              by_cases h12 : nt.literal = reservedKey
              · rw [if_pos h12] at h
                simp at h
              · rw [if_neg h12] at h
                cases rest2 with
                | nil => simp at h
                | cons vwT rest3 =>
                  simp only at h
                  by_cases h13 : vwT.type ≠ .vineWhip
                  · rw [if_pos h13] at h
                    simp at h
                  · rw [if_neg h13] at h
                    cases hpv : parseValueF (2 * rest3.length + 2) rest3 with
                    | error e => rw [hpv] at h; simp at h
                    | ok p =>
                      obtain ⟨v, rest4⟩ := p
                      rw [hpv] at h
                      simp only at h
                      have hv := parseValueF_noRK _ rest3 v rest4 hpv
                      by_cases h14 : t.level < curr
                      · rw [if_pos h14] at h
                        exact parseLoopF_clean fuel rest4 _ t.level out h
                          (kvInsert_clean h12 hv (truncateTo_clean hc))
                      · rw [if_neg h14] at h
                        exact parseLoopF_clean fuel rest4 _ curr out h
                          (kvInsert_clean h12 hv hc)

theorem collapse_noRKM {s : List Frame} (h : stackClean s = true) :
    noRKM (collapse s) = true := by
  unfold collapse
  have hc := truncateTo_clean (n := 1) h
  cases ht : truncateTo 1 s with
  | nil => rfl
  | cons f rest =>
    rw [ht] at hc
    simp only [stackClean, List.all_cons, Bool.and_eq_true, frameOk] at hc
    exact hc.1.2

theorem ltStr_irrefl : ∀ s : Str, ltStr s s = false
  | [] => rfl
  | a :: as => by
    simp only [ltStr, lt_irrefl, if_false, reduceIte]
    exact ltStr_irrefl as

/-- A later `std::map` assignment to the same key overwrites the earlier one. -/
theorem mapInsert_mapInsert (k : Str) (v v' : BSONValue) (m : BSONMap) :
    mapInsert k v' (mapInsert k v m) = mapInsert k v' m := by
  induction m with
  | nil => simp [mapInsert, ltStr_irrefl]
  | cons p rest ih =>
    obtain ⟨k', w⟩ := p
    by_cases hlt : ltStr k k' = true
    · simp [mapInsert, hlt, ltStr_irrefl]
    · by_cases heq : k = k'
      · simp [mapInsert, hlt, heq, ltStr_irrefl]
      · simp only [mapInsert, hlt, heq, if_false, Bool.false_eq_true, reduceIte]
        rw [ih]

/-- Looking up a key immediately after inserting it yields the inserted value. -/
theorem mapLookup_mapInsert (k : Str) (v : BSONValue) (m : BSONMap) :
    mapLookup k (mapInsert k v m) = some v := by
  induction m with
  | nil => simp [mapInsert, mapLookup]
  | cons p rest ih =>
    obtain ⟨k', w⟩ := p
    by_cases hlt : ltStr k k' = true
    · simp [mapInsert, hlt, mapLookup]
    · by_cases heq : k = k'
      · simp [mapInsert, hlt, heq, mapLookup, ltStr_irrefl]
      · simp only [mapInsert, hlt, heq, if_false, Bool.false_eq_true, reduceIte]
        simp only [mapLookup, heq, if_false, reduceIte]
        exact ih

/-- Looking up a different key after an insertion is unchanged. -/
theorem mapLookup_mapInsert_ne {k k' : Str} (v : BSONValue) (m : BSONMap)
    (hne : k' ≠ k) : mapLookup k' (mapInsert k v m) = mapLookup k' m := by
  induction m with
  | nil => simp [mapInsert, mapLookup, hne]
  | cons p rest ih =>
    obtain ⟨k'', w⟩ := p
    by_cases hlt : ltStr k k'' = true
    · simp [mapInsert, hlt, mapLookup, hne]
    · by_cases heq : k = k''
      · subst heq
        simp [mapInsert, hlt, mapLookup, hne]
      · simp only [mapInsert, hlt, heq, if_false, Bool.false_eq_true, reduceIte]
        simp only [mapLookup]
        split_ifs with h2
        · rfl
        · exact ih

/-!  Single-statement behavior of the parse loop, used for the error claims. -/

/-- A stage-`S` section header whose indent check passes but whose badge check
fails (fewer than `S` frames on the stack) aborts with the badges error
(BSONParser.cpp:56-62). -/
theorem parseLoop_badges {t nt : Token} {rest : List Token} {stack : List Frame}
    {curr : Nat} (h1 : t.type = .indent) (h2 : nt.type = .sectionOpen)
    (h3 : (t.level : Int) = (nt.level : Int) - 1) (h4 : stack.length < nt.level) :
    parseLoop (t :: nt :: rest) stack curr = .error .badgesError := by
  rw [← parseLoopF_eq ((t :: nt :: rest).length + 1) _ stack curr (by omega)]
  simp only [parseLoopF]
  rw [if_neg (by simp [h1]), if_neg (by simp [h1]), if_pos h1]
  rw [if_pos h2, if_neg (not_not_intro h3), if_pos h4]

/-- A section statement whose name is the reserved key aborts with the
reserved-key error, at any stage and stack (BSONParser.cpp:69, 177-179). -/
theorem parseLoop_reserved_section {t nt idT : Token} {rest : List Token}
    {stack : List Frame} {curr : Nat} (h1 : t.type = .indent)
    (h2 : nt.type = .sectionOpen) (h3 : (t.level : Int) = (nt.level : Int) - 1)
    (h4 : nt.level ≤ stack.length) (h5 : idT.type = .identifier)
    (h6 : idT.literal = reservedKey) :
    parseLoop (t :: nt :: idT :: rest) stack curr = .error .reservedKeyError := by
  rw [← parseLoopF_eq ((t :: nt :: idT :: rest).length + 1) _ stack curr (by omega)]
  simp only [parseLoopF]
  rw [if_neg (by simp [h1]), if_neg (by simp [h1]), if_pos h1]
  rw [if_pos h2, if_neg (not_not_intro h3), if_neg (by omega)]
  rw [if_neg (by simp [h5]), if_pos h6]

/-- A key/value statement whose key is the reserved key aborts with the
reserved-key error, at any indent at or below the current level
(BSONParser.cpp:112, 177-179). -/
theorem parseLoop_reserved_kv {t nt : Token} {rest : List Token}
    {stack : List Frame} {curr : Nat} (h1 : t.type = .indent)
    (h2 : nt.type = .identifier) (h3 : t.level ≤ curr)
    (h4 : nt.literal = reservedKey) :
    parseLoop (t :: nt :: rest) stack curr = .error .reservedKeyError := by
  rw [← parseLoopF_eq ((t :: nt :: rest).length + 1) _ stack curr (by omega)]
  simp only [parseLoopF]
  rw [if_neg (by simp [h1]), if_neg (by simp [h1]), if_pos h1]
  rw [if_neg (by simp [h2]), if_pos h2, if_neg (by omega), if_pos h4]

/-- The value grammar rejects an indent or end-of-input token as a value start
with the type error (BSONParser.cpp:173). -/
theorem parseValueFromTokens_nonvalue {next : Token} {rest : List Token}
    (h : next.type = .indent ∨ next.type = .eof) :
    parseValueFromTokens (next :: rest) = .error .typeError := by
  simp only [parseValueFromTokens]
  rcases h with h | h <;> rw [h]

/-- A key/value statement whose assign operator is followed by the next line's
indent token or by end of input (the lexer emitted no value tokens) aborts with
the type error. -/
theorem parseLoop_emptyValue {t nt vwT next : Token} {rest : List Token}
    {stack : List Frame} {curr : Nat} (h1 : t.type = .indent)
    (h2 : nt.type = .identifier) (h3 : t.level ≤ curr)
    (h4 : nt.literal ≠ reservedKey) (h5 : vwT.type = .vineWhip)
    (h6 : next.type = .indent ∨ next.type = .eof) :
    parseLoop (t :: nt :: vwT :: next :: rest) stack curr = .error .typeError := by
  rw [← parseLoopF_eq ((t :: nt :: vwT :: next :: rest).length + 1) _ stack curr (by omega)]
  rw [parseLoopF]
  rw [if_neg (by simp [h1]), if_neg (by simp [h1]), if_pos h1]
  rw [if_neg (by simp [h2]), if_pos h2, if_neg (by omega), if_neg h4]
  rw [if_neg (not_not_intro h5)]
  rw [show parseValueF (2 * (next :: rest).length + 2) (next :: rest)
        = (parseValueFromTokens (next :: rest)).map (fun p => (p.1, p.2.1)) from
      parseValueF_eq _ _ (by simp only [List.length_cons]; omega)]
  rw [parseValueFromTokens_nonvalue h6]
  rfl

/-- No document accepted by the parser binds the reserved key anywhere. -/
theorem parse_noRK {content : Str} {doc : BSONMap} (h : parse content = .ok doc) :
    noRKM doc = true := by
  rw [parse_eq_parseF] at h
  unfold parseF at h
  cases htok : tokenizeF content with
  | error e => rw [htok] at h; simp at h
  | ok ts =>
    rw [htok] at h
    simp only at h
    cases hloop : parseLoopF (ts.length + 1) ts [rootFrame] 0 with
    | error e => rw [hloop] at h; simp at h
    | ok stack =>
      rw [hloop] at h
      simp only [Except.ok.injEq] at h
      rw [← h]
      exact collapse_noRKM (parseLoopF_clean _ ts [rootFrame] 0 stack hloop (by rfl))

/-!  The claims. -/

/-- The reference-style valid input of the format reference and the C++ test
suite (`testValid`). -/
def refInput : Str :=
  ("BULBA!\nzZz Basic Configuration\napp_name ~~~~~~> \"Pokedex_API\"\n" ++
   "version  ~~~~~~> 1.5\nis_production ~> NotVeryEffective\nmissing_data ~> MissingNo\n" ++
   "\nzZz Database Connection (Level 1)\n(o) database (o)\n    host ~~~~> \"127.0.0.1\"\n" ++
   "    \n    zZz Connection Pool Settings (Level 2)\n    (O) pool (O)\n" ++
   "        max_connections ~~~~> 100\n        \n        zZz Critical Kernel flags (Level 3)\n" ++
   "        (@) KERNEL_FLAGS (@)\n            panic_on_fail ~~~~> SuperEffective\n" ++
   "\nzZz Allowed Users List\nwhitelist ~~~~> <| \"Prof_Oak\", \"Mom\" |>\n").data

/-- The document the reference input denotes (keys in `std::map` order). -/
def refExpected : BSONMap :=
  [("app_name".data, .str "Pokedex_API".data),
   ("database".data, .obj [("host".data, .str "127.0.0.1".data),
     ("pool".data, .obj [("KERNEL_FLAGS".data, .obj [("panic_on_fail".data, .bool true)]),
       ("max_connections".data, .int 100)])]),
   ("is_production".data, .bool false),
   ("missing_data".data, .null),
   ("version".data, .float (mkRat 3 2)),
   ("whitelist".data, .arr [.str "Prof_Oak".data, .str "Mom".data])]

set_option maxRecDepth 100000 in
/-- C1: the reference-style valid input (header sentinel, a top-level string and
numeric key, the three-level section chain `database`/`pool`/`KERNEL_FLAGS`
ending in a boolean key, and a two-string array) parses successfully, and the
resulting document holds the matching scalar keys, the nested object chain, and
the array value `["Prof_Oak", "Mom"]` under `whitelist`. -/
theorem c1_reference_input_parses : parse refInput = .ok refExpected := by
  rw [parse_eq_parseF]
  rfl

/-- Scenario F input from the C++ test suite: a stage-3 section directly under a
stage-1 section. -/
def scenFInput : Str :=
  "BULBA!\n(o) level1 (o)\n        (@) level3 (@)\n            key ~> \"val\"".data

/-- C2 (amended) counterexample: a stage-3 section header at indent 0 is
processed while the stack holds one frame (fewer than 3), but the parse fails
with the indentation error, not the badges error — the indent check `L = S − 1`
runs first. -/
theorem c2_counterexample :
    tokenize "BULBA!\n(@) x (@)".data =
      .ok [⟨.header, headerStr, 1, 0⟩, ⟨.indent, [], 2, 0⟩, ⟨.sectionOpen, [], 2, 3⟩,
           ⟨.identifier, "x".data, 2, 0⟩, ⟨.sectionClose, [], 2, 3⟩, ⟨.eof, [], 2, 0⟩] ∧
    parse "BULBA!\n(@) x (@)".data = .error .indentationError ∧
    parse "BULBA!\n(@) x (@)".data ≠ .error .badgesError := by
  have h2 : parse "BULBA!\n(@) x (@)".data = .error .indentationError := by
    rw [parse_eq_parseF]
    rfl
  refine ⟨by rw [← tokenizeF_eq]; rfl, h2, ?_⟩
  rw [h2]
  simp

/-- C2 (amended): a section-open statement of stage `S` whose indent check
passes (`L = S − 1`) but that is processed with fewer than `S` frames on the
context stack fails with the badges error; in particular Scenario F, a stage-3
section opened directly under a stage-1 section, fails with the badges error. -/
theorem c2_insufficient_badges :
    (∀ (t nt : Token) (rest : List Token) (stack : List Frame) (curr : Nat),
      t.type = .indent → nt.type = .sectionOpen →
      (t.level : Int) = (nt.level : Int) - 1 → stack.length < nt.level →
      parseLoop (t :: nt :: rest) stack curr = .error .badgesError) ∧
    parse scenFInput = .error .badgesError := by
  refine ⟨fun t nt rest stack curr h1 h2 h3 h4 => parseLoop_badges h1 h2 h3 h4, ?_⟩
  rw [parse_eq_parseF]
  rfl

/-- C2 witness: the general badges statement at a concrete stage-3 header over
the root-only stack, and the concrete Scenario F parse. -/
theorem c2_insufficient_badges_witness :
    parseLoop [⟨.indent, [], 2, 2⟩, ⟨.sectionOpen, [], 2, 3⟩] [rootFrame] 0 =
      .error .badgesError ∧
    parse scenFInput = .error .badgesError :=
  ⟨c2_insufficient_badges.1 ⟨.indent, [], 2, 2⟩ ⟨.sectionOpen, [], 2, 3⟩ [] [rootFrame] 0
      rfl rfl (by decide) (by decide),
   c2_insufficient_badges.2⟩

/-- C3: after initialization the stack is the root frame at level 0; the stack's
length always equals the deepest open section level (the `currentLevel` cursor)
plus one, frame `i` sitting at level `i`; and each statement-processing step —
the section truncate-and-push, the key/value dedent truncation, and the
key/value insertion — preserves this invariant. -/
theorem c3_stack_invariant :
    StackInv [rootFrame] 0 ∧
    (∀ (stack : List Frame) (curr : Nat), StackInv stack curr → stack.length = curr + 1) ∧
    (∀ (name : Str) (S : Nat) (stack : List Frame) (curr : Nat),
      StackInv stack curr → 1 ≤ S → S ≤ stack.length →
      StackInv (sectionStep name S stack) S) ∧
    (∀ (L : Nat) (stack : List Frame) (curr : Nat),
      StackInv stack curr → L < curr → StackInv (dedentTo L stack) L) ∧
    (∀ (key : Str) (v : BSONValue) (stack : List Frame) (curr : Nat),
      StackInv stack curr → StackInv (kvInsert key v stack) curr) :=
  ⟨rfl,
   fun _ _ h => StackInv_length h,
   fun name S _ _ h h1 h2 => StackInv_sectionStep name S h h1 h2,
   fun L _ _ h hL => StackInv_dedent L h hL,
   fun key v _ _ h => StackInv_kvInsert key v h⟩

/-- C3 witness: the invariant holds along a concrete statement sequence —
open a stage-1 section, insert a key, dedent back to the root. -/
theorem c3_stack_invariant_witness :
    StackInv (sectionStep "database".data 1 [rootFrame]) 1 ∧
    (sectionStep "database".data 1 [rootFrame]).length = 1 + 1 ∧
    StackInv (kvInsert "host".data (.int 1) (sectionStep "database".data 1 [rootFrame])) 1 ∧
    StackInv (dedentTo 0 (sectionStep "database".data 1 [rootFrame])) 0 :=
  have h0 := c3_stack_invariant.1
  have hs := c3_stack_invariant.2.2.1 "database".data 1 [rootFrame] 0 h0 (by decide)
    (by decide)
  ⟨hs,
   c3_stack_invariant.2.1 _ 1 hs,
   c3_stack_invariant.2.2.2.2 "host".data (.int 1) _ 1 hs,
   c3_stack_invariant.2.2.2.1 0 _ 1 hs (by decide)⟩

/-- C8: the empty input has no lines at all, so the header check never runs:
tokenization yields only the end-of-input token and parsing succeeds with the
empty root document. -/
theorem c8_empty_input :
    tokenize ("".data) = .ok [⟨.eof, [], 0, 0⟩] ∧ parse ("".data) = .ok [] := by
  refine ⟨rfl, ?_⟩
  rw [parse_eq_parseF]
  rfl

/-- C4 (amended) counterexample: the first physical line of `"BULBA!\r\n"` is
`"BULBA!\r"`, which has a trailing extra character and is not exactly the
sentinel, yet tokenization succeeds — the lexer strips one trailing carriage
return before the header comparison (Lexer.cpp:21). -/
theorem c4_counterexample :
    cppSplit '\n' "BULBA!\r\n".data = ["BULBA!\r".data] ∧
    "BULBA!\r".data ≠ headerStr ∧
    tokenize "BULBA!\r\n".data = .ok [⟨.header, headerStr, 1, 0⟩, ⟨.eof, [], 1, 0⟩] := by
  refine ⟨rfl, by decide, ?_⟩
  rw [← tokenizeF_eq]
  rfl

/-- C4 (amended): when the first physical line, after stripping one trailing
carriage return, differs from the header sentinel, tokenization (and hence
parsing) fails with the header error; when it matches, a successful token
stream contains exactly one header token and no indent token for line 1 (every
indent token is for line 2 or later). -/
theorem c4_header_rule :
    (∀ (content first : Str) (rest : List Str), cppSplit '\n' content = first :: rest →
      stripCR first ≠ headerStr → tokenize content = .error .headerError) ∧
    (∀ (content first : Str) (rest : List Str) (ts : List Token),
      cppSplit '\n' content = first :: rest → tokenize content = .ok ts →
      ts.countP (fun t => decide (t.type = .header)) = 1 ∧
      ∀ t ∈ ts, t.type = .indent → 2 ≤ t.line) := by
  constructor
  · intro content first rest hsplit hne
    exact tokenize_headerError hsplit hne
  · intro content first rest ts hsplit htok
    obtain ⟨hh, body, hb, rfl⟩ := tokenize_shape hsplit htok
    constructor
    · have hbody : body.countP (fun t => decide (t.type = .header)) = 0 := by
        rw [List.countP_eq_zero]
        intro t ht
        have := (tokLines_tokOk rest 1 body hb t ht).2.1
        simp [this]
      simp [List.countP_cons, List.countP_append, hbody]
    · intro t ht hind
      simp only [List.mem_cons, List.mem_append, List.mem_singleton] at ht
      rcases ht with (rfl | ht) | (rfl | hx)
      · simp at hind
      · have := (tokLines_tokOk rest 1 body hb t ht).1
        omega
      · simp at hind
      · simp at hx

/-- The token stream of the small valid input `"BULBA!\na ~> 1"`. -/
def smallTs : List Token :=
  [⟨.header, headerStr, 1, 0⟩, ⟨.indent, [], 2, 0⟩, ⟨.identifier, "a".data, 2, 0⟩,
   ⟨.vineWhip, [], 2, 0⟩, ⟨.numberLit, "1".data, 2, 0⟩, ⟨.eof, [], 2, 0⟩]

/-- C4 witness: the negative half on a wrong first line, and the positive half
on a small valid input. -/
theorem c4_header_rule_witness :
    tokenize "NOT_BULBA!\nkey ~> \"val\"".data = .error .headerError ∧
    (smallTs.countP (fun t => decide (t.type = .header)) = 1 ∧
     ∀ t ∈ smallTs, t.type = .indent → 2 ≤ t.line) :=
  ⟨c4_header_rule.1 "NOT_BULBA!\nkey ~> \"val\"".data "NOT_BULBA!".data
      ["key ~> \"val\"".data] rfl (by decide),
   c4_header_rule.2 "BULBA!\na ~> 1".data "BULBA!".data ["a ~> 1".data] smallTs
      rfl (by rw [← tokenizeF_eq]; rfl)⟩

/-- C5 (amended) counterexample: the nested array literal `<| <| 1, 2 |> |>`
does not tokenize to a well-nested ArrayStart/ArrayEnd sequence — the interior
is split at the inner comma as well, so tokenization fails with the type error,
and so does a parse of a line carrying that value. -/
theorem c5_counterexample :
    tokenizeValue 1 "<| <| 1, 2 |> |>".data = .error .typeError ∧
    parse "BULBA!\nn ~> <| <| 1, 2 |> |>".data = .error .typeError := by
  constructor
  · rw [← tokenizeValueF_eq ("<| <| 1, 2 |> |>".data.length + 1) 1 _ (by omega)]
    rfl
  · rw [parse_eq_parseF]
    rfl

/-- C5 (amended): the lexer splits an array interior at every comma — without
tracking nested array delimiters or quoted strings — and tokenizes each segment
recursively, emitting a comma token between segments, the whole bracketed by
ArrayStart and ArrayEnd.  A flat array such as `<| "Prof_Oak", "Mom" |>`
therefore tokenizes as claimed, but the nested literal `<| <| 1, 2 |> |>` fails
with the type error. -/
theorem c5_array_commas :
    (∀ (lineNum : Nat) (s0 : Str),
      ¬(trimST s0).isEmpty = true →
      ¬(['"'].isPrefixOf (trimST s0) && ['"'].isSuffixOf (trimST s0)) = true →
      trimST s0 ≠ "SuperEffective".data →
      trimST s0 ≠ "NotVeryEffective".data →
      trimST s0 ≠ "MissingNo".data →
      ("<|".data.isPrefixOf (trimST s0) && "|>".data.isSuffixOf (trimST s0)) = true →
      tokenizeValue lineNum s0 =
        match tokenizeSegs lineNum (cppSplit ',' (arrayInner (trimST s0))) true with
        | .error e => .error e
        | .ok body =>
          .ok (⟨.arrayStart, [], lineNum, 0⟩ :: body ++ [⟨.arrayEnd, [], lineNum, 0⟩])) ∧
    tokenizeValue 1 "<| \"Prof_Oak\", \"Mom\" |>".data =
      .ok [⟨.arrayStart, [], 1, 0⟩, ⟨.stringLit, "Prof_Oak".data, 1, 0⟩,
           ⟨.comma, [], 1, 0⟩, ⟨.stringLit, "Mom".data, 1, 0⟩, ⟨.arrayEnd, [], 1, 0⟩] ∧
    tokenizeValue 1 "<| <| 1, 2 |> |>".data = .error .typeError := by
  refine ⟨?_, ?_, ?_⟩
  · intro lineNum s0 h1 h2 h3 h4 h5 h6
    rw [tokenizeValue]
    rw [if_neg h1, if_neg h2, if_neg h3, if_neg h4, if_neg h5, dif_pos h6]
  · rw [← tokenizeValueF_eq ("<| \"Prof_Oak\", \"Mom\" |>".data.length + 1) 1 _ (by omega)]
    rfl
  · rw [← tokenizeValueF_eq ("<| <| 1, 2 |> |>".data.length + 1) 1 _ (by omega)]
    rfl

/-- C5 witness: the array-branch equation instantiated at the concrete flat
array, with all hypotheses discharged, plus the two concrete tokenizations. -/
theorem c5_array_commas_witness :
    tokenizeValue 1 "<| 7 |>".data =
      (match tokenizeSegs 1 (cppSplit ',' (arrayInner (trimST "<| 7 |>".data))) true with
       | .error e => .error e
       | .ok body =>
         .ok (⟨.arrayStart, [], 1, 0⟩ :: body ++ [⟨.arrayEnd, [], 1, 0⟩])) ∧
    tokenizeValue 1 "<| <| 1, 2 |> |>".data = .error .typeError :=
  ⟨c5_array_commas.1 1 "<| 7 |>".data (by decide) (by decide) (by decide) (by decide)
      (by decide) (by decide),
   c5_array_commas.2.2⟩

/-- C6 (amended) counterexample: a key/value line whose assign operator is
followed by no value makes the parse fail with the type error, not the syntax
error — the token after the assign is the end-of-input (or next indent) token,
which the value grammar rejects as `TypeError`. -/
theorem c6_counterexample :
    parse "BULBA!\nkey ~>".data = .error .typeError ∧
    parse "BULBA!\nkey ~>".data ≠ .error .syntaxError := by
  have h1 : parse "BULBA!\nkey ~>".data = .error .typeError := by
    rw [parse_eq_parseF]
    rfl
  refine ⟨h1, ?_⟩
  rw [h1]
  simp

/-- C6 (amended): an empty remainder after the assign operator makes the lexer
emit no value tokens, so the parser's value grammar meets the next line's
indent token or the end-of-input token and fails with the type error. -/
theorem c6_empty_value :
    (∀ (lineNum : Nat) (s0 : Str), trimST s0 = [] → tokenizeValue lineNum s0 = .ok []) ∧
    (∀ (t nt vwT next : Token) (rest : List Token) (stack : List Frame) (curr : Nat),
      t.type = .indent → nt.type = .identifier → t.level ≤ curr →
      nt.literal ≠ reservedKey → vwT.type = .vineWhip →
      (next.type = .indent ∨ next.type = .eof) →
      parseLoop (t :: nt :: vwT :: next :: rest) stack curr = .error .typeError) ∧
    parse "BULBA!\nkey ~>".data = .error .typeError := by
  refine ⟨?_, ?_, ?_⟩
  · intro lineNum s0 h
    rw [tokenizeValue, if_pos (by rw [h]; rfl)]
  · intro t nt vwT next rest stack curr h1 h2 h3 h4 h5 h6
    exact parseLoop_emptyValue h1 h2 h3 h4 h5 h6
  · rw [parse_eq_parseF]
    rfl

/-- C6 witness: the lexer part at a whitespace-only value text, and the parser
part at a concrete empty-value statement followed by end of input. -/
theorem c6_empty_value_witness :
    tokenizeValue 2 "  ".data = .ok [] ∧
    parseLoop [⟨.indent, [], 2, 0⟩, ⟨.identifier, "key".data, 2, 0⟩,
        ⟨.vineWhip, [], 2, 0⟩, ⟨.eof, [], 2, 0⟩] [rootFrame] 0 = .error .typeError :=
  ⟨c6_empty_value.1 2 "  ".data (by decide),
   c6_empty_value.2.1 ⟨.indent, [], 2, 0⟩ ⟨.identifier, "key".data, 2, 0⟩
      ⟨.vineWhip, [], 2, 0⟩ ⟨.eof, [], 2, 0⟩ [] [rootFrame] 0 rfl rfl (by decide)
      (by decide) rfl (Or.inr rfl)⟩

/-- C7 (amended) counterexample: an input that contains the reserved key
`Charizard` as a key, but on a line after a malformed one, fails with the
syntax error of the earlier line, not with the reserved-key error. -/
theorem c7_counterexample :
    parse "BULBA!\n!bad\nCharizard ~> 1".data = .error .syntaxError ∧
    parse "BULBA!\n!bad\nCharizard ~> 1".data ≠ .error .reservedKeyError := by
  have h1 : parse "BULBA!\n!bad\nCharizard ~> 1".data = .error .syntaxError := by
    rw [parse_eq_parseF]
    rfl
  refine ⟨h1, ?_⟩
  rw [h1]
  simp

/-- C7 (amended): no document accepted by the parser contains the reserved key
`Charizard` anywhere, as a key or section name at any depth; and whenever the
parser reaches a section statement or a key/value statement whose name equals
the reserved literal (all earlier checks passing), it fails with the dedicated
reserved-key error, at any nesting level. -/
theorem c7_reserved_key :
    (∀ (content : Str) (doc : BSONMap), parse content = .ok doc → noRKM doc = true) ∧
    (∀ (t nt idT : Token) (rest : List Token) (stack : List Frame) (curr : Nat),
      t.type = .indent → nt.type = .sectionOpen →
      (t.level : Int) = (nt.level : Int) - 1 → nt.level ≤ stack.length →
      idT.type = .identifier → idT.literal = reservedKey →
      parseLoop (t :: nt :: idT :: rest) stack curr = .error .reservedKeyError) ∧
    (∀ (t nt : Token) (rest : List Token) (stack : List Frame) (curr : Nat),
      t.type = .indent → nt.type = .identifier → t.level ≤ curr →
      nt.literal = reservedKey →
      parseLoop (t :: nt :: rest) stack curr = .error .reservedKeyError) :=
  ⟨fun _ _ h => parse_noRK h,
   fun _ _ _ _ _ _ h1 h2 h3 h4 h5 h6 => parseLoop_reserved_section h1 h2 h3 h4 h5 h6,
   fun _ _ _ _ _ h1 h2 h3 h4 => parseLoop_reserved_kv h1 h2 h3 h4⟩

/-- C7 witness: the accepted-document half on a small valid input, and the two
rejection halves at a concrete reserved section name and reserved key. -/
theorem c7_reserved_key_witness :
    noRKM [("a".data, BSONValue.int 1)] = true ∧
    parseLoop [⟨.indent, [], 2, 0⟩, ⟨.sectionOpen, [], 2, 1⟩,
        ⟨.identifier, reservedKey, 2, 0⟩, ⟨.sectionClose, [], 2, 1⟩]
      [rootFrame] 0 = .error .reservedKeyError ∧
    parseLoop [⟨.indent, [], 2, 0⟩, ⟨.identifier, reservedKey, 2, 0⟩,
        ⟨.vineWhip, [], 2, 0⟩] [rootFrame] 0 = .error .reservedKeyError :=
  ⟨c7_reserved_key.1 "BULBA!\na ~> 1".data [("a".data, BSONValue.int 1)]
      (by rw [parse_eq_parseF]; rfl),
   c7_reserved_key.2.1 ⟨.indent, [], 2, 0⟩ ⟨.sectionOpen, [], 2, 1⟩
      ⟨.identifier, reservedKey, 2, 0⟩ [⟨.sectionClose, [], 2, 1⟩] [rootFrame] 0
      rfl rfl (by decide) (by decide) rfl rfl,
   c7_reserved_key.2.2 ⟨.indent, [], 2, 0⟩ ⟨.identifier, reservedKey, 2, 0⟩
      [⟨.vineWhip, [], 2, 0⟩] [rootFrame] 0 rfl rfl (by decide) rfl⟩

/-- The duplicate-bindings input: the key `a` is bound twice at the root, and
the section `s` is opened twice under the root. -/
def dupInput : Str :=
  "BULBA!\na ~> 1\na ~> 2\n(o) s (o)\n    x ~> 1\n(o) s (o)\n    y ~> 2\n".data

/-- C9: a later `std::map` insertion replaces an earlier binding of the same key
and leaves other keys unchanged, so binding the same key twice in the same
object succeeds and the later value wins; re-opening a section under the same
parent with the same name installs a fresh empty object, discarding the earlier
section's contents — as the concrete duplicate-bindings input shows (`a = 2`,
and `s` holds only `y`). -/
theorem c9_duplicate_bindings :
    (∀ (k : Str) (v v' : BSONValue) (m : BSONMap),
      mapInsert k v' (mapInsert k v m) = mapInsert k v' m) ∧
    (∀ (k : Str) (v : BSONValue) (m : BSONMap), mapLookup k (mapInsert k v m) = some v) ∧
    (∀ (k k' : Str) (v : BSONValue) (m : BSONMap), k' ≠ k →
      mapLookup k' (mapInsert k v m) = mapLookup k' m) ∧
    parse dupInput = .ok [("a".data, .int 2), ("s".data, .obj [("y".data, .int 2)])] := by
  refine ⟨mapInsert_mapInsert, mapLookup_mapInsert,
    fun k k' v m h => mapLookup_mapInsert_ne v m h, ?_⟩
  rw [parse_eq_parseF]
  rfl

/-- C9 witness: the replacement laws at concrete keys and maps, and the
concrete duplicate-bindings parse. -/
theorem c9_duplicate_bindings_witness :
    mapInsert "a".data (.int 2) (mapInsert "a".data (.int 1) []) =
      mapInsert "a".data (.int 2) [] ∧
    mapLookup "a".data (mapInsert "a".data (.int 2) []) = some (.int 2) ∧
    mapLookup "b".data (mapInsert "a".data (.int 2) [("b".data, .int 7)]) =
      mapLookup "b".data [("b".data, .int 7)] ∧
    parse dupInput = .ok [("a".data, .int 2), ("s".data, .obj [("y".data, .int 2)])] :=
  ⟨c9_duplicate_bindings.1 "a".data (.int 1) (.int 2) [],
   c9_duplicate_bindings.2.1 "a".data (.int 2) [],
   c9_duplicate_bindings.2.2.1 "a".data "b".data (.int 2) [("b".data, .int 7)]
      (by decide),
   c9_duplicate_bindings.2.2.2⟩

/-- C10: for every token stream produced by a successful tokenization, the
parser's re-derivation of a numeric value from a NumberLit token never fails —
the lexer only emits NumberLit when a full integer or full floating-point parse
consumed the trimmed text, so the TypeError branch of the NumberLit case of
`parseValueFromTokens` is unreachable for lexer-produced tokens. -/
theorem c10_number_reparse :
    ∀ (content : Str) (ts : List Token), tokenize content = .ok ts →
      ∀ t ∈ ts, t.type = .numberLit → ∃ v, parseNumber t.literal = .ok v := by
  intro content ts htok t ht htype
  exact parseNumber_ok_of_numOk (tokenize_numOk htok t ht htype)

/-- C10 witness: the number token `1.5` of a concrete tokenization re-parses
successfully. -/
theorem c10_number_reparse_witness :
    ∃ v, parseNumber "1.5".data = .ok v :=
  c10_number_reparse "BULBA!\nv ~> 1.5".data
    [⟨.header, headerStr, 1, 0⟩, ⟨.indent, [], 2, 0⟩, ⟨.identifier, "v".data, 2, 0⟩,
     ⟨.vineWhip, [], 2, 0⟩, ⟨.numberLit, "1.5".data, 2, 0⟩, ⟨.eof, [], 2, 0⟩]
    (by rw [← tokenizeF_eq]; rfl)
    ⟨.numberLit, "1.5".data, 2, 0⟩ (by decide) rfl

end BSON
